import Mathlib

/-!
Verification development for the SPARK v2 Drive-watcher backend.

The definitions below are a shallow embedding of the change-harvesting
core of `src/index.js` (and its near-duplicate `src/unnamed/part_000`):
the file classifier (`isAudio`, `detectCallType`), the memoised ancestry
resolver (`getParents`, `isInSubtree`), and the page-driven harvesting
pass (`harvestChangesAndDispatch`).  JavaScript strings become `String`,
JS `null`/`undefined`-or-string fields become `Option String` with the
`x || null` truthiness coercion modelled by `jsOrNull`, asynchronous
remote calls become explicit `Except`-returning functions supplied by an
environment record, thrown exceptions become `Except.error`, and the
process-global mutable state (parent cache, `lastPageToken`) is threaded
through an explicit state record `St`.  The unbounded `while` loop of
`isInSubtree` and the `do..while` page loop are given a fuel parameter;
running out of fuel yields the artificial error `DriveErr.fuelOut`
(the JS loops simply keep running).
-/

deriving instance DecidableEq for Except

namespace Spark

/-! ### JavaScript string primitives -/

/-- `Char.toLower` applied characterwise: model of JS `String.prototype.toLowerCase`
(for the ASCII names and tokens this program inspects). -/
def strLower (s : String) : String :=
  ⟨s.data.map Char.toLower⟩

/-- Boolean list-prefix test (model of the prefix check underlying JS `startsWith`). -/
def isPre : List Char → List Char → Bool
  | [], _ => true
  | _ :: _, [] => false
  | a :: as, b :: bs => a = b && isPre as bs

/-- Model of JS `String.prototype.startsWith`. -/
def strStartsWith (s p : String) : Bool :=
  isPre p.data s.data

/-- Model of JS `String.prototype.endsWith`. -/
def strEndsWith (s p : String) : Bool :=
  isPre p.data.reverse s.data.reverse

/-- Substring occurrence test on character lists (model of JS `includes`). -/
def listIncludes (needle : List Char) : List Char → Bool
  | [] => needle.isEmpty
  | c :: t => isPre needle (c :: t) || listIncludes needle t

/-- Model of JS `String.prototype.includes`. -/
def strIncludes (hay needle : String) : Bool :=
  listIncludes needle.data hay.data

/-- JS truthiness coercion `x || null` for an optional string:
the empty string is falsy and collapses to `null`. -/
def jsOrNull : Option String → Option String
  | some t => if t = "" then none else some t
  | none => none

/-! ### File classifier (src/index.js lines 76-87) -/

/-- `AUDIO_EXTS` from the source. -/
def AUDIO_EXTS : List String :=
  [".m4a", ".mp3", ".wav", ".ogg", ".flac", ".aac", ".m4b"]

/-- `FOLDER_MIME` from the source. -/
def FOLDER_MIME : String := "application/vnd.google-apps.folder"

/-- `isAudio(name, mime)` from the source:
`mime.startsWith("audio/") || AUDIO_EXTS.some((ext) => name.toLowerCase().endsWith(ext))`. -/
def isAudio (name mime : String) : Bool :=
  strStartsWith mime "audio/" ||
    AUDIO_EXTS.any (fun ext => strEndsWith (strLower name) ext)

/-- `detectCallType(name)` from the source (the spec's `inferDirection`). -/
def detectCallType (name : String) : String :=
  if strIncludes (strLower name) "incoming" then "incoming"
  else if strIncludes (strLower name) "outgoing" then "outgoing"
  else "unknown"

/-! ### Data model -/

/-- The `file` object of one Drive change entry (the fields the source reads).
A missing `id` is modelled as the empty string, matching the `!f.id` check. -/
structure DriveFile where
  id : String
  name : String
  mimeType : String
  webViewLink : Option String
  webContentLink : Option String
  createdTime : String
  modifiedTime : String
deriving DecidableEq

/-- One entry of a change page; `file` may be absent (`!f` check). -/
structure Change where
  file : Option DriveFile
deriving DecidableEq

/-- One response of `drive.changes.list`. -/
structure ChangePage where
  changes : List Change
  nextPageToken : Option String
  newStartPageToken : Option String
deriving DecidableEq

/-- The notification payload POSTed to the processor. -/
structure Payload where
  source : String
  fileId : String
  webViewLink : Option String
  webContentLink : Option String
  fileName : String
  mimeType : String
  createdAt : String
  modifiedAt : String
  callType : String
deriving DecidableEq

/-- An HTTP response as seen through `fetch` (status and body text). -/
structure HttpResp where
  status : Nat
  body : String
deriving DecidableEq

/-- `r.ok` of a fetch response: status in the 200-299 range. -/
def respOk (r : HttpResp) : Bool :=
  decide (200 ≤ r.status) && decide (r.status < 300)

/-- Errors a harvesting pass can raise (JS thrown exceptions), plus the
fuel-exhaustion marker of this embedding. -/
inductive DriveErr
  | config (msg : String)
  | startToken (msg : String)
  | pageFetch (msg : String)
  | parentLookup (msg : String)
  | fuelOut
deriving DecidableEq

/-- Process state threaded through a pass: the module-level `parentCache`
and `lastPageToken`, plus observation traces: `lookups` records every
remote `drive.files.get` ancestry call in order, `dispatched` every
webhook POST attempt in order, and `log` every `console.error` line. -/
structure St where
  cache : List (String × List String)
  lookups : List String
  lastPageToken : Option String
  dispatched : List Payload
  log : List String
deriving DecidableEq

/-- Fresh process state (empty cache, no cursor). -/
def cleanSt : St :=
  { cache := [], lookups := [], lastPageToken := none, dispatched := [], log := [] }

/-- The remote ancestry lookup: `drive.files.get(...).data.parents`, which may
be absent (`data.parents || []`) or throw. -/
abbrev RemoteFn := String → Except String (Option (List String))

/-- The external collaborators and configuration of one pass. -/
structure Env where
  rootFolderId : String
  processUrl : String
  startPageToken : Except String String
  listChanges : String → Except String ChangePage
  remoteParents : RemoteFn
  dispatch : Payload → Except String HttpResp

/-! ### Ancestry resolver (src/index.js lines 90-117) -/

/-- Lookup in the parent cache (model of `Map.has`/`Map.get`). -/
def cacheGet : List (String × List String) → String → Option (List String)
  | [], _ => none
  | (k, v) :: rest, i => if i = k then some v else cacheGet rest i

/-- `getParents(drive, id)` from the source: answer from the cache when
present, otherwise perform one remote lookup, apply `|| []`, and cache. -/
def getParents (remote : RemoteFn) (s : St) (id : String) :
    Except String (List String) × St :=
  match cacheGet s.cache id with
  | some ps => (.ok ps, s)
  | none =>
    match remote id with
    | .error e => (.error e, { s with lookups := s.lookups ++ [id] })
    | .ok o =>
      let parents := o.getD []
      (.ok parents,
        { s with cache := (id, parents) :: s.cache, lookups := s.lookups ++ [id] })

/-- The `while (stack.length)` loop of `isInSubtree`.  The stack is kept
top-first (JS pops from the array's end), so `push(...parents)` becomes
`parents.reverse ++ stack`. -/
def isInSubtreeLoop (remote : RemoteFn) (root : String) :
    Nat → List String → List String → St → Except DriveErr Bool × St
  | 0, _, _, s => (.error .fuelOut, s)
  | _ + 1, [], _, s => (.ok false, s)
  | fuel + 1, cur :: stack, seen, s =>
    if cur = "" ∨ cur ∈ seen then
      isInSubtreeLoop remote root fuel stack seen s
    else
      match getParents remote s cur with
      | (.error e, s1) => (.error (.parentLookup e), s1)
      | (.ok ps, s1) =>
        if ps = [] then (.ok false, s1)
        else if root ∈ ps then (.ok true, s1)
        else isInSubtreeLoop remote root fuel (ps.reverse ++ stack) (cur :: seen) s1

/-- `isInSubtree(drive, fileOrFolderId, rootFolderId)` from the source
(the spec's `isDescendantOf`). -/
def isInSubtree (remote : RemoteFn) (fuel : Nat) (fileOrFolderId rootFolderId : String)
    (s : St) : Except DriveErr Bool × St :=
  isInSubtreeLoop remote rootFolderId fuel [fileOrFolderId] [] s

/-! ### Harvesting pass (src/index.js lines 192-260) -/

/-- The payload built for a qualifying file (`payload` object literal). -/
def mkPayload (f : DriveFile) : Payload :=
  { source := "google_drive"
    fileId := f.id
    webViewLink := jsOrNull f.webViewLink
    webContentLink := jsOrNull f.webContentLink
    fileName := f.name
    mimeType := f.mimeType
    createdAt := f.createdTime
    modifiedAt := f.modifiedTime
    callType := detectCallType f.name }

/-- The body of the `for (const ch of changes)` loop: skip entries without a
file or id, skip folders, skip out-of-subtree and non-audio files, otherwise
build the payload and POST it, catching dispatch failures (which are only
logged).  An ancestry failure propagates as an error. -/
def processEntry (env : Env) (fuel : Nat) (s : St) (ch : Change) :
    Except DriveErr Unit × St :=
  match ch.file with
  | none => (.ok (), s)
  | some f =>
    if f.id = "" then (.ok (), s)
    else if f.mimeType = FOLDER_MIME then (.ok (), s)
    else
      match isInSubtree env.remoteParents fuel f.id env.rootFolderId s with
      | (.error e, s1) => (.error e, s1)
      | (.ok inside, s1) =>
        if !inside then (.ok (), s1)
        else if !isAudio f.name f.mimeType then (.ok (), s1)
        else
          let payload := mkPayload f
          let s2 := { s1 with dispatched := s1.dispatched ++ [payload] }
          match env.dispatch payload with
          | .error e =>
            (.ok (), { s2 with log := s2.log ++ ["Webhook POST error: " ++ e] })
          | .ok r =>
            if respOk r then (.ok (), s2)
            else
              (.ok (), { s2 with log :=
                s2.log ++ ["PROCESS_WEBHOOK_URL failed: " ++ toString r.status ++ " " ++ r.body] })

/-- Sequential processing of one page's entries; the first entry error
aborts the remainder (there is no try/catch around the loop body). -/
def processChanges (env : Env) (fuel : Nat) : List Change → St → Except DriveErr Unit × St
  | [], s => (.ok (), s)
  | c :: cs, s =>
    match processEntry env fuel s c with
    | (.error e, s1) => (.error e, s1)
    | (.ok _, s1) => processChanges env fuel cs s1

/-- The `do { ... } while (nextToken)` page loop.  Returns the final value of
the local `newStart` variable together with the list of pages consumed (ghost
data used only by the theorems). -/
def harvestLoop (env : Env) (fuel : Nat) :
    Nat → String → St → Except DriveErr (Option String × List ChangePage) × St
  | 0, _, s => (.error .fuelOut, s)
  | pf + 1, tok, s =>
    match env.listChanges tok with
    | .error e => (.error (.pageFetch e), s)
    | .ok page =>
      match processChanges env fuel page.changes s with
      | (.error e, s1) => (.error e, s1)
      | (.ok _, s1) =>
        match jsOrNull page.nextPageToken with
        | some nt =>
          match harvestLoop env fuel pf nt s1 with
          | (.error e, s2) => (.error e, s2)
          | (.ok (ns, pages), s2) =>
            match ns with
            | some x => (.ok (some x, page :: pages), s2)
            | none => (.ok (jsOrNull page.newStartPageToken, page :: pages), s2)
        | none => (.ok (jsOrNull page.newStartPageToken, [page]), s1)

/-- Tail of `harvestChangesAndDispatch` once the starting token is known:
run the page loop, then `if (newStart) lastPageToken = newStart`. -/
def harvestFrom (env : Env) (fuel : Nat) (t : String) (s : St) :
    Except DriveErr (Option String × List ChangePage) × St :=
  match harvestLoop env fuel fuel t s with
  | (.error e, s1) => (.error e, s1)
  | (.ok (ns, pages), s1) =>
    match ns with
    | some x => (.ok (some x, pages), { s1 with lastPageToken := some x })
    | none => (.ok (none, pages), s1)

/-- `harvestChangesAndDispatch()` from the source: configuration check,
lazy cursor initialisation, page loop, final cursor advancement. -/
def harvestChangesAndDispatch (env : Env) (fuel : Nat) (s : St) :
    Except DriveErr (Option String × List ChangePage) × St :=
  if env.rootFolderId = "" ∨ env.processUrl = "" then
    (.error (.config "Missing DRIVE_FOLDER_ID or PROCESS_WEBHOOK_URL."), s)
  else
    match jsOrNull s.lastPageToken with
    | some t => harvestFrom env fuel t s
    | none =>
      match env.startPageToken with
      | .error e => (.error (.startToken e), s)
      | .ok t => harvestFrom env fuel t { s with lastPageToken := some t }

/-! ### Specification-side notions used by the theorems -/

/-- The value of the loop-local `newStart` variable after consuming `pages`
in order: the last truthy `newStartPageToken` observed, if any. -/
def lastNewStart : List ChangePage → Option String
  | [] => none
  | p :: ps =>
    match lastNewStart ps with
    | some x => some x
    | none => jsOrNull p.newStartPageToken

/-- `root` is a (proper) ancestor of `x` through parent links of the pure
parent map `p`. -/
inductive ReachesRoot (p : String → List String) (root : String) : String → Prop
  | base {x : String} : root ∈ p x → ReachesRoot p root x
  | step {x q : String} : q ∈ p x → ReachesRoot p root q → ReachesRoot p root x

/-- A single-parent climb of exactly `k` steps from `x` whose endpoint has
`root` among its parents. -/
inductive ChainHits (p : String → List String) (root : String) : Nat → String → Prop
  | zero {x : String} : root ∈ p x → ChainHits p root 0 x
  | succ {x y : String} {k : Nat} :
      p x = [y] → ChainHits p root k y → ChainHits p root (k + 1) x

/-- Chain-function form of `ChainHits`: `c` enumerates the climb. -/
def ChainSpec (p : String → List String) (root : String) (k : Nat) (c : Nat → String) : Prop :=
  (∀ i, i < k → p (c i) = [c (i + 1)]) ∧ root ∈ p (c k)

/-- A remote lookup that never fails and always answers with the pure map `p`. -/
def pureRemote (p : String → List String) : RemoteFn :=
  fun i => .ok (some (p i))

/-- Excise a detour of length `d` starting after position `a` from a chain. -/
def cutChain (c : Nat → String) (a d : Nat) : Nat → String :=
  fun m => if m ≤ a then c m else c (m + d)

/-- The skip categories of the harvester's entry loop, relative to the pure
parent map `p` and the watched root: an entry with no file object, no item
identifier, a folder mime type, an ancestry climb answering false, or an
in-subtree file that is not audio.  (The climb conditions are stated from
the empty cache; with a pure remote the answer is cache-independent.) -/
@[reducible]
def SkipChange (p : String → List String) (root : String) (fuel : Nat)
    (ch : Change) : Prop :=
  match ch.file with
  | none => True
  | some f =>
      f.id = "" ∨ f.mimeType = FOLDER_MIME ∨
      (isInSubtree (pureRemote p) fuel f.id root cleanSt).1 = .ok false ∨
      ((isInSubtree (pureRemote p) fuel f.id root cleanSt).1 = .ok true ∧
        isAudio f.name f.mimeType = false)

/-- The cache only holds answers agreeing with the pure parent map `p`. -/
def CacheOk (p : String → List String) (s : St) : Prop :=
  ∀ i ps, cacheGet s.cache i = some ps → ps = p i

/-- No cached parent set contains `root`. -/
def NoRootCache (root : String) (s : St) : Prop :=
  ∀ i ps, cacheGet s.cache i = some ps → root ∉ ps

/-- No successful remote lookup ever answers a parent set containing `root`. -/
def NoRootRemote (root : String) (remote : RemoteFn) : Prop :=
  ∀ i o, remote i = .ok o → root ∉ o.getD []

/-- Equality of every state component except the log. -/
def StCoreEq (s1 s2 : St) : Prop :=
  s1.cache = s2.cache ∧ s1.lookups = s2.lookups ∧
    s1.lastPageToken = s2.lastPageToken ∧ s1.dispatched = s2.dispatched

/-- A sequence of `getParents` calls (the resolve operations of one process). -/
def runGetParents (remote : RemoteFn) : List String → St → St
  | [], s => s
  | i :: is, s => runGetParents remote is (getParents remote s i).2

/-- Invariant tying the lookup trace to the cache: no identifier was looked
up twice, and every looked-up identifier is cached. -/
def LookInv (s : St) : Prop :=
  s.lookups.Nodup ∧ ∀ i, i ∈ s.lookups → (cacheGet s.cache i).isSome = true

/-! ### Concrete environments used by counterexamples and witnesses -/

/-- A folder entry. -/
def file4Folder : DriveFile :=
  { id := "folder1", name := "2024-01", mimeType := FOLDER_MIME,
    webViewLink := none, webContentLink := none, createdTime := "c1", modifiedTime := "m1" }

/-- An audio file outside the watched subtree. -/
def file4Out : DriveFile :=
  { id := "f_out", name := "Outside.m4a", mimeType := "audio/mp4",
    webViewLink := none, webContentLink := none, createdTime := "c2", modifiedTime := "m2" }

/-- An audio file inside the watched subtree. -/
def file4In : DriveFile :=
  { id := "f_in", name := "Incoming call.m4a", mimeType := "audio/mp4",
    webViewLink := some "v", webContentLink := none, createdTime := "c3", modifiedTime := "m3" }

/-- One feed page: a folder, an out-of-subtree file, an in-subtree audio file. -/
def page4 : ChangePage :=
  { changes := [⟨some file4Folder⟩, ⟨some file4Out⟩, ⟨some file4In⟩],
    nextPageToken := none, newStartPageToken := some "t2" }

/-- Ancestry for `page4`: `f_out` hangs below `other` (a Drive-root child),
`f_in` hangs below `sub` which is a child of the watched root. -/
def p4 : String → List String := fun i =>
  if i = "f_out" then ["other"]
  else if i = "f_in" then ["sub"]
  else if i = "sub" then ["root"]
  else []

/-- Environment serving exactly `page4` at token `t1`; dispatch succeeds. -/
def env4 : Env :=
  { rootFolderId := "root", processUrl := "url", startPageToken := .ok "s0",
    listChanges := fun t => if t = "t1" then .ok page4 else .error "unknown token",
    remoteParents := pureRemote p4, dispatch := fun _ => .ok ⟨200, "ok"⟩ }

/-- State with the cursor held at `t1`. -/
def st4 : St := { cleanSt with lastPageToken := some "t1" }

/-- An in-subtree audio file whose ancestry lookup fails remotely. -/
def fileBad : DriveFile :=
  { id := "bad", name := "Broken.m4a", mimeType := "audio/mp4",
    webViewLink := none, webContentLink := none, createdTime := "c4", modifiedTime := "m4" }

/-- A qualifying in-subtree audio file listed after the failing one. -/
def fileGood : DriveFile :=
  { id := "good", name := "Good.m4a", mimeType := "audio/mp4",
    webViewLink := none, webContentLink := none, createdTime := "c5", modifiedTime := "m5" }

/-- A page whose first entry fails ancestry resolution and whose second
entry qualifies. -/
def pageC1 : ChangePage :=
  { changes := [⟨some fileBad⟩, ⟨some fileGood⟩],
    nextPageToken := none, newStartPageToken := some "t2" }

/-- Remote ancestry that throws for `bad` and answers `[root]` for `good`. -/
def remoteC1 : RemoteFn := fun i =>
  if i = "bad" then .error "lookup failed"
  else if i = "good" then .ok (some ["root"])
  else .ok (some [])

/-- Environment serving exactly `pageC1` at token `t1`. -/
def envC1 : Env :=
  { rootFolderId := "root", processUrl := "url", startPageToken := .ok "s0",
    listChanges := fun t => if t = "t1" then .ok pageC1 else .error "unknown token",
    remoteParents := remoteC1, dispatch := fun _ => .ok ⟨200, "ok"⟩ }

/-- State with the cursor held at `t1`. -/
def stC1 : St := { cleanSt with lastPageToken := some "t1" }

/-- `stC1` after the one failed remote lookup of `bad`. -/
def stC1' : St := { stC1 with lookups := ["bad"] }

/-- Multi-parent ancestry: `x` has parents `[b, a]`; `a` sits at the Drive
root (no parents) while `b` is a child of `root`.  The climb pops `a`
first and bails out before ever resolving `b`. -/
def pC7 : String → List String := fun i =>
  if i = "x" then ["b", "a"]
  else if i = "b" then ["root"]
  else []

/-- Single-parent chain `a → b → root`. -/
def pW7 : String → List String := fun i =>
  if i = "a" then ["b"] else if i = "b" then ["root"] else []

/-- A remote lookup that always answers "no parents field". -/
def remote6 : RemoteFn := fun _ => .ok none

/-- Ancestry above the watched root `r`: `r` hangs below `p`, which has no
parents; `r` is in nobody's parent set. -/
def remote10 : RemoteFn := fun i =>
  if i = "r" then .ok (some ["p"]) else .ok (some [])

/-- Environment whose feed page fetch always fails. -/
def envW2 : Env :=
  { rootFolderId := "root", processUrl := "url", startPageToken := .ok "s0",
    listChanges := fun _ => .error "net down",
    remoteParents := fun _ => .ok (some []), dispatch := fun _ => .ok ⟨200, "ok"⟩ }

/-- State with the cursor held at `t1`. -/
def stW2 : St := { cleanSt with lastPageToken := some "t1" }

/-- A single empty page carrying the new-start token `t9`. -/
def pageW3 : ChangePage :=
  { changes := [], nextPageToken := none, newStartPageToken := some "t9" }

/-- Environment serving exactly `pageW3` at token `t1`. -/
def envW3 : Env :=
  { rootFolderId := "root", processUrl := "url", startPageToken := .ok "s0",
    listChanges := fun t => if t = "t1" then .ok pageW3 else .error "bad",
    remoteParents := fun _ => .ok (some []), dispatch := fun _ => .ok ⟨200, "ok"⟩ }

/-- State with the cursor held at `t1`. -/
def stW3 : St := { cleanSt with lastPageToken := some "t1" }

/-- A qualifying audio file directly below the watched root. -/
def fileW5 : DriveFile :=
  { id := "f", name := "a.mp3", mimeType := "audio/mpeg",
    webViewLink := none, webContentLink := none, createdTime := "c6", modifiedTime := "m6" }

/-- Environment whose every dispatch answers HTTP 500. -/
def envW5 : Env :=
  { rootFolderId := "root", processUrl := "url", startPageToken := .ok "s0",
    listChanges := fun _ => .error "unused",
    remoteParents := fun _ => .ok (some ["root"]),
    dispatch := fun _ => .ok ⟨500, "err"⟩ }

/-- `cleanSt` after resolving the single ancestry lookup of `f`. -/
def stW5' : St := { cleanSt with cache := [("f", ["root"])], lookups := ["f"] }

/-! ## Lemmas -/

/-- `isPre` decides the prefix relation. -/
theorem isPre_iff (l1 l2 : List Char) : isPre l1 l2 = true ↔ l1 <+: l2 := by
  induction l1 generalizing l2 with
  | nil => simp [isPre]
  | cons a as ih =>
    cases l2 with
    | nil => simp [isPre]
    | cons b bs => simp [isPre, ih, List.cons_prefix_cons]

/-- `strEndsWith` decides the suffix relation on the character lists. -/
theorem strEndsWith_iff (s p : String) :
    strEndsWith s p = true ↔ p.data <:+ s.data := by
  unfold strEndsWith
  rw [isPre_iff]
  constructor
  · intro h
    have h2 := h.reverse
    simpa using h2
  · intro h
    simpa using h.reverse

/-- `jsOrNull` keeps a nonempty string. -/
theorem jsOrNull_some {t : String} (h : t ≠ "") : jsOrNull (some t) = some t := by
  simp [jsOrNull, h]

/-! ## Claims -/

/-- `getParents` never touches the cursor. -/
theorem getParents_lpt (remote : RemoteFn) (s : St) (id : String) :
    ((getParents remote s id).2).lastPageToken = s.lastPageToken := by
  unfold getParents
  cases hc : cacheGet s.cache id with
  | some ps => simp
  | none =>
    cases hr : remote id with
    | error e => simp
    | ok o => simp

/-- The subtree climb never touches the cursor. -/
theorem isInSubtreeLoop_lpt (remote : RemoteFn) (root : String) :
    ∀ (fuel : Nat) (stack seen : List String) (s : St),
      ((isInSubtreeLoop remote root fuel stack seen s).2).lastPageToken = s.lastPageToken := by
  intro fuel
  induction fuel with
  | zero => intro stack seen s; simp [isInSubtreeLoop]
  | succ f ih =>
    intro stack seen s
    cases stack with
    | nil => simp [isInSubtreeLoop]
    | cons cur rest =>
      by_cases h : cur = "" ∨ cur ∈ seen
      · simp [isInSubtreeLoop, h, ih]
      · rcases hg : getParents remote s cur with ⟨r, s1⟩
        have hlpt : s1.lastPageToken = s.lastPageToken := by
          have h2 := getParents_lpt remote s cur
          rw [hg] at h2
          exact h2
        cases r with
        | error e => simp [isInSubtreeLoop, h, hg, hlpt]
        | ok ps =>
          by_cases hps : ps = []
          · simp [isInSubtreeLoop, h, hg, hps, hlpt]
          · by_cases hroot : root ∈ ps
            · simp [isInSubtreeLoop, h, hg, hps, hroot, hlpt]
            · simp [isInSubtreeLoop, h, hg, hps, hroot, ih, hlpt]

/-- Processing one entry never touches the cursor. -/
theorem processEntry_lpt (env : Env) (fuel : Nat) (s : St) (ch : Change) :
    ((processEntry env fuel s ch).2).lastPageToken = s.lastPageToken := by
  unfold processEntry
  cases ch.file with
  | none => simp
  | some f =>
    by_cases hid : f.id = ""
    · simp [hid]
    · by_cases hmime : f.mimeType = FOLDER_MIME
      · simp [hid, hmime]
      · rcases hg : isInSubtree env.remoteParents fuel f.id env.rootFolderId s with ⟨r, s1⟩
        have hlpt : s1.lastPageToken = s.lastPageToken := by
          have h2 := isInSubtreeLoop_lpt env.remoteParents env.rootFolderId fuel [f.id] [] s
          rw [show isInSubtreeLoop env.remoteParents env.rootFolderId fuel [f.id] [] s
              = isInSubtree env.remoteParents fuel f.id env.rootFolderId s from rfl, hg] at h2
          exact h2
        cases r with
        | error e => simp [hid, hmime, hg, hlpt]
        | ok inside =>
          cases inside with
          | false => simp [hid, hmime, hg, hlpt]
          | true =>
            by_cases haud : isAudio f.name f.mimeType
            · cases hd : env.dispatch (mkPayload f) with
              | error e => simp [hid, hmime, hg, haud, hd, hlpt]
              | ok r2 =>
                by_cases hok : respOk r2
                · simp [hid, hmime, hg, haud, hd, hok, hlpt]
                · simp [hid, hmime, hg, haud, hd, hok, hlpt]
            · simp [hid, hmime, hg, haud, hlpt]

/-- Processing a page of entries never touches the cursor. -/
theorem processChanges_lpt (env : Env) (fuel : Nat) :
    ∀ (cs : List Change) (s : St),
      ((processChanges env fuel cs s).2).lastPageToken = s.lastPageToken := by
  intro cs
  induction cs with
  | nil => intro s; simp [processChanges]
  | cons c rest ih =>
    intro s
    rcases hp : processEntry env fuel s c with ⟨r, s1⟩
    have hlpt : s1.lastPageToken = s.lastPageToken := by
      have h2 := processEntry_lpt env fuel s c
      rw [hp] at h2
      exact h2
    cases r with
    | error e => simp [processChanges, hp, hlpt]
    | ok u => simp [processChanges, hp, ih, hlpt]

/-- The page loop never touches the cursor. -/
theorem harvestLoop_lpt (env : Env) (fuel : Nat) :
    ∀ (pf : Nat) (tok : String) (s : St),
      ((harvestLoop env fuel pf tok s).2).lastPageToken = s.lastPageToken := by
  intro pf
  induction pf with
  | zero => intro tok s; simp [harvestLoop]
  | succ pf ih =>
    intro tok s
    cases hl : env.listChanges tok with
    | error e => simp [harvestLoop, hl]
    | ok page =>
      rcases hp : processChanges env fuel page.changes s with ⟨r, s1⟩
      have hlpt : s1.lastPageToken = s.lastPageToken := by
        have h2 := processChanges_lpt env fuel page.changes s
        rw [hp] at h2
        exact h2
      cases r with
      | error e => simp [harvestLoop, hl, hp, hlpt]
      | ok u =>
        cases hn : jsOrNull page.nextPageToken with
        | none => simp [harvestLoop, hl, hp, hn, hlpt]
        | some nt =>
          rcases hrec : harvestLoop env fuel pf nt s1 with ⟨r2, s2⟩
          have hlpt2 : s2.lastPageToken = s1.lastPageToken := by
            have h2 := ih nt s1
            rw [hrec] at h2
            exact h2
          cases r2 with
          | error e => simp [harvestLoop, hl, hp, hn, hrec, hlpt, hlpt2]
          | ok pr =>
            rcases pr with ⟨ns, pages⟩
            cases ns with
            | none => simp [harvestLoop, hl, hp, hn, hrec, hlpt, hlpt2]
            | some x => simp [harvestLoop, hl, hp, hn, hrec, hlpt, hlpt2]

/-- On a successful page loop, the returned `newStart` value is the last
truthy new-start token of the consumed pages. -/
theorem harvestLoop_newStart (env : Env) (fuel : Nat) :
    ∀ (pf : Nat) (tok : String) (s : St) (ns : Option String)
      (pages : List ChangePage) (s1 : St),
      harvestLoop env fuel pf tok s = (.ok (ns, pages), s1) →
      ns = lastNewStart pages := by
  intro pf
  induction pf with
  | zero => intro tok s ns pages s1 h; simp [harvestLoop] at h
  | succ pf ih =>
    intro tok s ns pages s1 h
    cases hl : env.listChanges tok with
    | error e => simp [harvestLoop, hl] at h
    | ok page =>
      rcases hp : processChanges env fuel page.changes s with ⟨r, s2⟩
      cases r with
      | error e => simp [harvestLoop, hl, hp] at h
      | ok u =>
        cases hn : jsOrNull page.nextPageToken with
        | none =>
          simp [harvestLoop, hl, hp, hn] at h
          rcases h with ⟨⟨hns, hpages⟩, hs⟩
          subst hpages
          simp [lastNewStart, hns]
        | some nt =>
          rcases hrec : harvestLoop env fuel pf nt s2 with ⟨r2, s3⟩
          cases r2 with
          | error e => simp [harvestLoop, hl, hp, hn, hrec] at h
          | ok pr =>
            rcases pr with ⟨ns2, pages2⟩
            have hns2 := ih nt s2 ns2 pages2 s3 hrec
            cases ns2 with
            | none =>
              simp [harvestLoop, hl, hp, hn, hrec] at h
              rcases h with ⟨⟨hns, hpages⟩, hs⟩
              subst hpages
              have hls : lastNewStart (page :: pages2) = jsOrNull page.newStartPageToken := by
                rw [lastNewStart, ← hns2]
              rw [hls]
              exact hns.symm
            | some x =>
              simp [harvestLoop, hl, hp, hn, hrec] at h
              rcases h with ⟨⟨hns, hpages⟩, hs⟩
              subst hpages
              have hls : lastNewStart (page :: pages2) = some x := by
                rw [lastNewStart, ← hns2]
              rw [hls]
              exact hns.symm

/-- `lastNewStart` is `none` exactly when no page carried a truthy
new-start token. -/
theorem lastNewStart_none_iff (pages : List ChangePage) :
    lastNewStart pages = none ↔ ∀ p, p ∈ pages → jsOrNull p.newStartPageToken = none := by
  induction pages with
  | nil => simp [lastNewStart]
  | cons p ps ih =>
    constructor
    · intro h
      have hcons : (match lastNewStart ps with
          | some x => some x
          | none => jsOrNull p.newStartPageToken) = none := h
      cases hps : lastNewStart ps with
      | some x =>
        rw [hps] at hcons
        exact Option.noConfusion hcons
      | none =>
        rw [hps] at hcons
        intro q hq
        rcases List.mem_cons.mp hq with hq1 | hq2
        · rw [hq1]
          exact hcons
        · exact (ih.mp hps) q hq2
    · intro h
      have h1 : jsOrNull p.newStartPageToken = none := h p (by simp)
      have h2 : lastNewStart ps = none := ih.mpr (fun q hq => h q (by simp [hq]))
      show (match lastNewStart ps with
        | some x => some x
        | none => jsOrNull p.newStartPageToken) = none
      rw [h2]
      exact h1

/-- Replacing the dispatch function leaves the remote-parents collaborator
unchanged. -/
theorem env_upd_remoteParents (env : Env) (d : Payload → Except String HttpResp) :
    ({ env with dispatch := d } : Env).remoteParents = env.remoteParents := rfl

/-- Replacing the dispatch function leaves the root-folder id unchanged. -/
theorem env_upd_root (env : Env) (d : Payload → Except String HttpResp) :
    ({ env with dispatch := d } : Env).rootFolderId = env.rootFolderId := rfl

/-- Replacing the dispatch function installs the new dispatcher. -/
theorem env_upd_dispatch (env : Env) (d : Payload → Except String HttpResp) :
    ({ env with dispatch := d } : Env).dispatch = d := rfl

/-- `getParents` reads and writes only the core state, so core-equal states
stay core-equal and give the same answer. -/
theorem getParents_coreEq (remote : RemoteFn) (i : String) (s1 s2 : St)
    (h : StCoreEq s1 s2) :
    (getParents remote s1 i).1 = (getParents remote s2 i).1 ∧
      StCoreEq (getParents remote s1 i).2 (getParents remote s2 i).2 := by
  rcases h with ⟨hc, hl, ht, hd⟩
  unfold getParents
  rw [← hc]
  cases hcg : cacheGet s1.cache i with
  | some ps =>
    simp only [hcg]
    exact ⟨trivial, hc, hl, ht, hd⟩
  | none =>
    cases hr : remote i with
    | error e =>
      simp only [hcg, hr]
      refine ⟨trivial, rfl, ?_, ht, hd⟩
      rw [hl]
    | ok o =>
      simp only [hcg, hr]
      refine ⟨trivial, rfl, ?_, ht, hd⟩
      rw [hl]

/-- The subtree climb reads and writes only the core state. -/
theorem isInSubtreeLoop_coreEq (remote : RemoteFn) (root : String) :
    ∀ (fuel : Nat) (stack seen : List String) (s1 s2 : St), StCoreEq s1 s2 →
      (isInSubtreeLoop remote root fuel stack seen s1).1 =
        (isInSubtreeLoop remote root fuel stack seen s2).1 ∧
      StCoreEq (isInSubtreeLoop remote root fuel stack seen s1).2
        (isInSubtreeLoop remote root fuel stack seen s2).2 := by
  intro fuel
  induction fuel with
  | zero => intro stack seen s1 s2 h; exact ⟨rfl, h⟩
  | succ f ih =>
    intro stack seen s1 s2 h
    cases stack with
    | nil => exact ⟨rfl, h⟩
    | cons cur rest =>
      by_cases hskip : cur = "" ∨ cur ∈ seen
      · simpa [isInSubtreeLoop, hskip] using ih rest seen s1 s2 h
      · rcases hg1 : getParents remote s1 cur with ⟨r1, t1⟩
        rcases hg2 : getParents remote s2 cur with ⟨r2, t2⟩
        have hgp : r1 = r2 ∧ StCoreEq t1 t2 := by
          have h0 := getParents_coreEq remote cur s1 s2 h
          rw [hg1, hg2] at h0
          exact h0
        rcases hgp with ⟨hr, hcore⟩
        subst hr
        cases r1 with
        | error e => simp [isInSubtreeLoop, hskip, hg1, hg2, hcore]
        | ok ps =>
          by_cases hps : ps = []
          · simp [isInSubtreeLoop, hskip, hg1, hg2, hps, hcore]
          · by_cases hroot : root ∈ ps
            · simp [isInSubtreeLoop, hskip, hg1, hg2, hps, hroot, hcore]
            · simpa [isInSubtreeLoop, hskip, hg1, hg2, hps, hroot] using
                ih (ps.reverse ++ rest) (cur :: seen) t1 t2 hcore

/-- Processing one entry with a different dispatcher from a core-equal state
produces the same result and a core-equal state: the dispatch outcome can
influence only the log. -/
theorem processEntry_coreEq (env : Env) (d : Payload → Except String HttpResp)
    (fuel : Nat) (ch : Change) :
    ∀ (s1 s2 : St), StCoreEq s1 s2 →
      (processEntry env fuel s1 ch).1 =
        (processEntry { env with dispatch := d } fuel s2 ch).1 ∧
      StCoreEq (processEntry env fuel s1 ch).2
        (processEntry { env with dispatch := d } fuel s2 ch).2 := by
  intro s1 s2 h
  rcases ch with ⟨file⟩
  cases file with
  | none => exact ⟨rfl, h⟩
  | some f =>
    by_cases hid : f.id = ""
    · simpa [processEntry, hid] using h
    · by_cases hmime : f.mimeType = FOLDER_MIME
      · simpa [processEntry, hid, hmime] using h
      · rcases hg1 : isInSubtree env.remoteParents fuel f.id env.rootFolderId s1
          with ⟨r1, t1⟩
        rcases hg2 : isInSubtree env.remoteParents fuel f.id env.rootFolderId s2
          with ⟨r2, t2⟩
        have hgp : r1 = r2 ∧ StCoreEq t1 t2 := by
          have h0 := isInSubtreeLoop_coreEq env.remoteParents env.rootFolderId fuel
            [f.id] [] s1 s2 h
          rw [show isInSubtreeLoop env.remoteParents env.rootFolderId fuel [f.id] [] s1
              = isInSubtree env.remoteParents fuel f.id env.rootFolderId s1 from rfl,
            show isInSubtreeLoop env.remoteParents env.rootFolderId fuel [f.id] [] s2
              = isInSubtree env.remoteParents fuel f.id env.rootFolderId s2 from rfl,
            hg1, hg2] at h0
          exact h0
        rcases hgp with ⟨hr, hcore⟩
        subst hr
        cases r1 with
        | error e =>
          simp [processEntry, hid, hmime, env_upd_remoteParents, env_upd_root,
            hg1, hg2, hcore]
        | ok inside =>
          cases inside with
          | false =>
            simp [processEntry, hid, hmime, env_upd_remoteParents, env_upd_root,
              hg1, hg2, hcore]
          | true =>
            by_cases haud : isAudio f.name f.mimeType
            · rcases hcore with ⟨hcc, hcl, hct, hcd⟩
              cases hd1 : env.dispatch (mkPayload f) with
              | error e1 =>
                cases hd2 : d (mkPayload f) with
                | error e2 =>
                  simp [processEntry, hid, hmime, env_upd_remoteParents, env_upd_root,
                    env_upd_dispatch, hg1, hg2, haud, hd1, hd2, StCoreEq, hcc, hcl,
                    hct, hcd]
                | ok r2 =>
                  by_cases hok2 : respOk r2
                  · simp [processEntry, hid, hmime, env_upd_remoteParents, env_upd_root,
                      env_upd_dispatch, hg1, hg2, haud, hd1, hd2, hok2, StCoreEq, hcc,
                      hcl, hct, hcd]
                  · simp [processEntry, hid, hmime, env_upd_remoteParents, env_upd_root,
                      env_upd_dispatch, hg1, hg2, haud, hd1, hd2, hok2, StCoreEq, hcc,
                      hcl, hct, hcd]
              | ok r1 =>
                cases hd2 : d (mkPayload f) with
                | error e2 =>
                  by_cases hok1 : respOk r1
                  · simp [processEntry, hid, hmime, env_upd_remoteParents, env_upd_root,
                      env_upd_dispatch, hg1, hg2, haud, hd1, hd2, hok1, StCoreEq, hcc,
                      hcl, hct, hcd]
                  · simp [processEntry, hid, hmime, env_upd_remoteParents, env_upd_root,
                      env_upd_dispatch, hg1, hg2, haud, hd1, hd2, hok1, StCoreEq, hcc,
                      hcl, hct, hcd]
                | ok r2 =>
                  by_cases hok1 : respOk r1 <;> by_cases hok2 : respOk r2 <;>
                    simp [processEntry, hid, hmime, env_upd_remoteParents, env_upd_root,
                      env_upd_dispatch, hg1, hg2, haud, hd1, hd2, hok1, hok2, StCoreEq,
                      hcc, hcl, hct, hcd]
            · simp [processEntry, hid, hmime, env_upd_remoteParents, env_upd_root,
                hg1, hg2, haud, hcore]

/-- Page processing with a different dispatcher from a core-equal state:
same result, core-equal final states — in particular the same entries are
evaluated and the same dispatch attempts are made. -/
theorem processChanges_coreEq (env : Env) (d : Payload → Except String HttpResp)
    (fuel : Nat) :
    ∀ (cs : List Change) (s1 s2 : St), StCoreEq s1 s2 →
      (processChanges env fuel cs s1).1 =
        (processChanges { env with dispatch := d } fuel cs s2).1 ∧
      StCoreEq (processChanges env fuel cs s1).2
        (processChanges { env with dispatch := d } fuel cs s2).2 := by
  intro cs
  induction cs with
  | nil => intro s1 s2 h; exact ⟨rfl, h⟩
  | cons c rest ih =>
    intro s1 s2 h
    rcases hp1 : processEntry env fuel s1 c with ⟨r1, t1⟩
    rcases hp2 : processEntry { env with dispatch := d } fuel s2 c with ⟨r2, t2⟩
    have hpe : r1 = r2 ∧ StCoreEq t1 t2 := by
      have h0 := processEntry_coreEq env d fuel c s1 s2 h
      rw [hp1, hp2] at h0
      exact h0
    rcases hpe with ⟨hr, hcore⟩
    subst hr
    cases r1 with
    | error e => simp [processChanges, hp1, hp2, hcore]
    | ok u =>
      cases u
      simpa [processChanges, hp1, hp2] using ih t1 t2 hcore

/-- Claim C9: `isAudio(name, contentType)` returns true iff the content-type
begins with the audio media-type prefix `"audio/"` or the lower-cased name
ends with one of the fixed recognised audio extensions; in particular
`isAudio "call.M4A" "" = true`, `isAudio "notes.txt" "text/plain" = false`,
and `isAudio "clip" "audio/wav" = true`. -/
theorem c9_isAudio_spec : ∀ name mime : String,
    (isAudio name mime = true ↔
      ("audio/".data <+: mime.data ∨
        ∃ ext, ext ∈ AUDIO_EXTS ∧ ext.data <:+ (strLower name).data))
    ∧ isAudio "call.M4A" "" = true
    ∧ isAudio "notes.txt" "text/plain" = false
    ∧ isAudio "clip" "audio/wav" = true := by
  intro name mime
  refine ⟨?_, by decide, by decide, by decide⟩
  unfold isAudio strStartsWith
  simp [List.any_eq_true, isPre_iff, strEndsWith_iff]

/-- Claim C8: `detectCallType` (the spec's `inferDirection`) returns one of
exactly incoming/outgoing/unknown by case-insensitive substring match, with
"incoming" checked before "outgoing": a name containing "incoming" yields
"incoming" even if it also contains "outgoing", and a name containing
neither yields "unknown"; in particular
`detectCallType "Incoming_Outgoing_2024.m4a" = "incoming"` and
`detectCallType "voicemail.wav" = "unknown"`. -/
theorem c8_detectCallType_spec : ∀ name : String,
    (detectCallType name = "incoming" ∨ detectCallType name = "outgoing" ∨
      detectCallType name = "unknown")
    ∧ (strIncludes (strLower name) "incoming" = true → detectCallType name = "incoming")
    ∧ (strIncludes (strLower name) "incoming" = false →
        strIncludes (strLower name) "outgoing" = true → detectCallType name = "outgoing")
    ∧ (strIncludes (strLower name) "incoming" = false →
        strIncludes (strLower name) "outgoing" = false → detectCallType name = "unknown")
    ∧ detectCallType "Incoming_Outgoing_2024.m4a" = "incoming"
    ∧ detectCallType "voicemail.wav" = "unknown" := by
  intro name
  refine ⟨?_, ?_, ?_, ?_, by decide, by decide⟩
  · by_cases h1 : strIncludes (strLower name) "incoming" = true <;>
      by_cases h2 : strIncludes (strLower name) "outgoing" = true <;>
      simp [detectCallType, h1, h2]
  · intro h1
    simp [detectCallType, h1]
  · intro h1 h2
    simp [detectCallType, h1, h2]
  · intro h1 h2
    simp [detectCallType, h1, h2]

/-- Witness for C8 at the two concrete names of the claim. -/
theorem c8_witness :
    detectCallType "Incoming_Outgoing_2024.m4a" = "incoming" ∧
      detectCallType "voicemail.wav" = "unknown" :=
  ⟨(c8_detectCallType_spec "Incoming_Outgoing_2024.m4a").2.1 (by decide),
    (c8_detectCallType_spec "voicemail.wav").2.2.2.1 (by decide) (by decide)⟩

/-- With the configuration present and a truthy cursor held, a pass is the
page loop run from that cursor. -/
theorem harvest_eq_from (env : Env) (fuel : Nat) (s : St) (t : String)
    (hcur : s.lastPageToken = some t) (ht : t ≠ "")
    (hcfg : ¬(env.rootFolderId = "" ∨ env.processUrl = "")) :
    harvestChangesAndDispatch env fuel s = harvestFrom env fuel t s := by
  unfold harvestChangesAndDispatch
  rw [if_neg hcfg, hcur, jsOrNull_some ht]

/-- Claim C2: for every harvesting pass that starts with a cursor present,
if a feed page fetch (`listChanges`) fails at any point mid-pass, the pass
aborts with that error and the held cursor value after the pass equals its
value before the pass — no partial cursor advancement. -/
theorem c2_page_fetch_failure_keeps_cursor :
    ∀ (env : Env) (fuel : Nat) (s : St) (t msg : String) (s1 : St),
      s.lastPageToken = some t → t ≠ "" →
      harvestChangesAndDispatch env fuel s = (.error (.pageFetch msg), s1) →
      s1.lastPageToken = some t := by
  intro env fuel s t msg s1 hcur ht h
  by_cases hcfg : env.rootFolderId = "" ∨ env.processUrl = ""
  · unfold harvestChangesAndDispatch at h
    rw [if_pos hcfg] at h
    simp at h
  · rw [harvest_eq_from env fuel s t hcur ht hcfg] at h
    unfold harvestFrom at h
    rcases hl : harvestLoop env fuel fuel t s with ⟨r, s2⟩
    rw [hl] at h
    have hlpt := harvestLoop_lpt env fuel fuel t s
    rw [hl] at hlpt
    cases r with
    | error e =>
      simp at h
      rcases h with ⟨he, hs⟩
      rw [← hs, hlpt]
      exact hcur
    | ok pr =>
      rcases pr with ⟨ns, pages⟩
      cases ns <;> simp at h

/-- Witness for C2: the always-failing feed `envW2` leaves the cursor at `t1`. -/
theorem c2_witness :
    (harvestChangesAndDispatch envW2 5 stW2).2.lastPageToken = some "t1" := by
  have h : harvestChangesAndDispatch envW2 5 stW2
      = (.error (.pageFetch "net down"), stW2) := by decide
  rw [h]
  exact c2_page_fetch_failure_keeps_cursor envW2 5 stW2 "t1" "net down" stW2 rfl
    (by decide) h

/-- Claim C3: a harvesting pass that completes all pages updates the cursor
exactly once, after the page loop: it becomes the last new-start token
observed on any page, and stays at its pre-loop value when no page carried
a truthy new-start token. -/
theorem c3_cursor_advanced_once :
    ∀ (env : Env) (fuel : Nat) (s : St) (t : String) (ns : Option String)
      (pages : List ChangePage) (s1 : St),
      s.lastPageToken = some t → t ≠ "" →
      harvestChangesAndDispatch env fuel s = (.ok (ns, pages), s1) →
      ns = lastNewStart pages ∧
      s1.lastPageToken = (match lastNewStart pages with
        | some x => some x
        | none => some t) ∧
      (lastNewStart pages = none ↔
        ∀ p, p ∈ pages → jsOrNull p.newStartPageToken = none) := by
  intro env fuel s t ns pages s1 hcur ht h
  by_cases hcfg : env.rootFolderId = "" ∨ env.processUrl = ""
  · unfold harvestChangesAndDispatch at h
    rw [if_pos hcfg] at h
    simp at h
  · rw [harvest_eq_from env fuel s t hcur ht hcfg] at h
    unfold harvestFrom at h
    rcases hl : harvestLoop env fuel fuel t s with ⟨r, s2⟩
    rw [hl] at h
    have hlpt := harvestLoop_lpt env fuel fuel t s
    rw [hl] at hlpt
    cases r with
    | error e => simp at h
    | ok pr =>
      rcases pr with ⟨ns2, pages2⟩
      have hns := harvestLoop_newStart env fuel fuel t s ns2 pages2 s2 hl
      cases ns2 with
      | some x =>
        simp at h
        rcases h with ⟨⟨hns1, hpag⟩, hs⟩
        subst hpag
        refine ⟨?_, ?_, lastNewStart_none_iff pages2⟩
        · rw [← hns1]
          exact hns
        · rw [← hs, ← hns]
      | none =>
        simp at h
        rcases h with ⟨⟨hns1, hpag⟩, hs⟩
        subst hpag
        refine ⟨?_, ?_, lastNewStart_none_iff pages2⟩
        · rw [← hns1]
          exact hns
        · rw [← hs, ← hns, hlpt, hcur]

/-- Witness for C3: the single-page feed `envW3` advances the cursor to the
observed new-start token `t9`. -/
theorem c3_witness :
    (harvestChangesAndDispatch envW3 5 stW3).2.lastPageToken = some "t9" := by
  have h : harvestChangesAndDispatch envW3 5 stW3
      = (.ok (some "t9", [pageW3]), { stW3 with lastPageToken := some "t9" }) := by
    decide
  have h2 := c3_cursor_advanced_once envW3 5 stW3 "t1" (some "t9") [pageW3]
    { stW3 with lastPageToken := some "t9" } rfl (by decide) h
  have h3 := h2.2.1
  rw [show lastNewStart [pageW3] = some "t9" from by decide] at h3
  calc (harvestChangesAndDispatch envW3 5 stW3).2.lastPageToken
      = ({ stW3 with lastPageToken := some "t9" } : St).lastPageToken := by rw [h]
    _ = some "t9" := h3

/-- Claim C6: an identifier whose resolved parent set is empty is not a
descendant of any root. -/
theorem c6_empty_parents_not_descendant :
    ∀ (remote : RemoteFn) (s : St) (id root : String) (fuel : Nat),
      2 ≤ fuel →
      (getParents remote s id).1 = .ok [] →
      (isInSubtree remote fuel id root s).1 = .ok false := by
  intro remote s id root fuel hfuel hg
  obtain ⟨f, rfl⟩ : ∃ f, fuel = f + 2 := ⟨fuel - 2, by omega⟩
  unfold isInSubtree
  by_cases hid : id = ""
  · simp [isInSubtreeLoop, hid]
  · rcases hgp : getParents remote s id with ⟨r, s2⟩
    rw [hgp] at hg
    simp at hg
    subst hg
    simp [isInSubtreeLoop, hid, hgp]

/-- Witness for C6: under `remote6` (no parents anywhere), `a` is not a
descendant of `r`. -/
theorem c6_witness : (isInSubtree remote6 2 "a" "r" cleanSt).1 = .ok false :=
  c6_empty_parents_not_descendant remote6 cleanSt "a" "r" 2 (by decide) (by decide)

/-- Counterexample for C1: in `envC1` the first entry's ancestry lookup
fails; the pass aborts with that error, nothing is logged, and the second
entry — which on its own would qualify and be dispatched — is never
evaluated.  This contradicts the claimed log-and-continue behaviour. -/
theorem c1_counterexample :
    (harvestChangesAndDispatch envC1 10 stC1).1 = .error (.parentLookup "lookup failed")
    ∧ (harvestChangesAndDispatch envC1 10 stC1).2.dispatched = []
    ∧ (harvestChangesAndDispatch envC1 10 stC1).2.log = []
    ∧ (processEntry envC1 10 stC1 ⟨some fileGood⟩).2.dispatched = [mkPayload fileGood] := by
  decide

/-- Claim C1 (amended): an ancestry failure raised while processing a single
change entry aborts the pass — the error propagates uncaught, so the
remaining entries of the page are not evaluated, and the page loop returns
the same error without advancing anything. -/
theorem c1_amended_entry_failure_aborts_pass :
    (∀ (env : Env) (fuel : Nat) (s : St) (c : Change) (cs : List Change)
        (e : DriveErr) (s1 : St),
        processEntry env fuel s c = (.error e, s1) →
        processChanges env fuel (c :: cs) s = (.error e, s1))
    ∧ (∀ (env : Env) (fuel pf : Nat) (tok : String) (s : St) (page : ChangePage)
        (e : DriveErr) (s1 : St),
        env.listChanges tok = .ok page →
        processChanges env fuel page.changes s = (.error e, s1) →
        harvestLoop env fuel (pf + 1) tok s = (.error e, s1)) := by
  constructor
  · intro env fuel s c cs e s1 h
    simp [processChanges, h]
  · intro env fuel pf tok s page e s1 h1 h2
    simp [harvestLoop, h1, h2]

/-- Witness for the amended C1 at the concrete failing page `pageC1`. -/
theorem c1_witness :
    processChanges envC1 10 [⟨some fileBad⟩, ⟨some fileGood⟩] stC1
        = (.error (.parentLookup "lookup failed"), stC1')
    ∧ harvestLoop envC1 10 1 "t1" stC1 = (.error (.parentLookup "lookup failed"), stC1') := by
  constructor
  · exact c1_amended_entry_failure_aborts_pass.1 envC1 10 stC1 ⟨some fileBad⟩
      [⟨some fileGood⟩] (.parentLookup "lookup failed") stC1' (by decide)
  · exact c1_amended_entry_failure_aborts_pass.2 envC1 10 0 "t1" stC1 pageC1
      (.parentLookup "lookup failed") stC1' (by decide) (by decide)

/-- Claim C5: a dispatch attempt with a non-success HTTP status or a failed
transport is logged but not retried and never raises to the pass.  First
conjunct: replacing the dispatcher by any other (e.g. an always-failing
one) changes neither the result of processing a page nor any state
component other than the log — so every subsequent entry is still
evaluated and, if qualifying, dispatched identically.  Second conjunct: a
qualifying entry whose dispatch fails still yields `.ok`, appends exactly
one dispatch attempt (no retry), and appends exactly one log line. -/
theorem c5_dispatch_failure_isolated :
    (∀ (env : Env) (d : Payload → Except String HttpResp) (fuel : Nat)
        (cs : List Change) (s : St),
        (processChanges env fuel cs s).1 =
          (processChanges { env with dispatch := d } fuel cs s).1
        ∧ StCoreEq (processChanges env fuel cs s).2
            (processChanges { env with dispatch := d } fuel cs s).2)
    ∧ (∀ (env : Env) (fuel : Nat) (f : DriveFile) (s s1 : St),
        f.id ≠ "" → f.mimeType ≠ FOLDER_MIME →
        isInSubtree env.remoteParents fuel f.id env.rootFolderId s = (.ok true, s1) →
        isAudio f.name f.mimeType = true →
        (∀ r, env.dispatch (mkPayload f) = .ok r → respOk r = false) →
        (processEntry env fuel s ⟨some f⟩).1 = .ok ()
        ∧ (processEntry env fuel s ⟨some f⟩).2.dispatched
            = s1.dispatched ++ [mkPayload f]
        ∧ (processEntry env fuel s ⟨some f⟩).2.log.length = s1.log.length + 1) := by
  constructor
  · intro env d fuel cs s
    exact processChanges_coreEq env d fuel cs s s ⟨rfl, rfl, rfl, rfl⟩
  · intro env fuel f s s1 hid hmime hsub haud hfail
    cases hd : env.dispatch (mkPayload f) with
    | error e =>
      simp [processEntry, hid, hmime, hsub, haud, hd]
    | ok r =>
      have hko := hfail r hd
      simp [processEntry, hid, hmime, hsub, haud, hd, hko]

/-- Witness for C5: under the HTTP-500 dispatcher `envW5`, the qualifying
file `fileW5` is still processed successfully, with one attempt and one
log line. -/
theorem c5_witness :
    (processEntry envW5 5 cleanSt ⟨some fileW5⟩).1 = .ok ()
    ∧ (processEntry envW5 5 cleanSt ⟨some fileW5⟩).2.dispatched
        = stW5'.dispatched ++ [mkPayload fileW5]
    ∧ (processEntry envW5 5 cleanSt ⟨some fileW5⟩).2.log.length
        = stW5'.log.length + 1 :=
  c5_dispatch_failure_isolated.2 envW5 5 fileW5 cleanSt stW5' (by decide) (by decide)
    (by decide) (by decide)
    (fun r hr => by
      have h2 : envW5.dispatch (mkPayload fileW5) = .ok ⟨500, "err"⟩ := rfl
      rw [h2] at hr
      rw [← Except.ok.inj hr]
      decide)

/-- If no remote answer and no cached parent set contains `root`, one
`getParents` call can neither answer a set containing `root` nor cache one. -/
theorem getParents_noRoot (remote : RemoteFn) (root : String) (s : St) (i : String)
    (hrem : NoRootRemote root remote) (hcache : NoRootCache root s) :
    (∀ ps, (getParents remote s i).1 = .ok ps → root ∉ ps) ∧
      NoRootCache root (getParents remote s i).2 := by
  unfold getParents
  cases hcg : cacheGet s.cache i with
  | some ps0 =>
    simp only [hcg]
    refine ⟨fun ps hps => ?_, hcache⟩
    rw [← Except.ok.inj hps]
    exact hcache i ps0 hcg
  | none =>
    cases hr : remote i with
    | error e =>
      simp only [hcg, hr]
      exact ⟨fun ps hps => Except.noConfusion hps, hcache⟩
    | ok o =>
      simp only [hcg, hr]
      have hnotin : root ∉ o.getD [] := hrem i o hr
      refine ⟨fun ps hps => ?_, ?_⟩
      · rw [← Except.ok.inj hps]
        exact hnotin
      · intro j qs hj
        have hj2 : (if j = i then some (o.getD []) else cacheGet s.cache j) = some qs := hj
        by_cases hji : j = i
        · rw [if_pos hji] at hj2
          rw [← Option.some.inj hj2]
          exact hnotin
        · rw [if_neg hji] at hj2
          exact hcache j qs hj2

/-- The subtree climb decides membership only through parent sets: if `root`
appears in no parent set it can ever see, the climb can never answer true. -/
theorem isInSubtreeLoop_noRoot (remote : RemoteFn) (root : String)
    (hrem : NoRootRemote root remote) :
    ∀ (fuel : Nat) (stack seen : List String) (s : St), NoRootCache root s →
      ∀ b, (isInSubtreeLoop remote root fuel stack seen s).1 = .ok b → b = false := by
  intro fuel
  induction fuel with
  | zero =>
    intro stack seen s hc b hb
    simp [isInSubtreeLoop] at hb
  | succ f ih =>
    intro stack seen s hc b hb
    cases stack with
    | nil =>
      cases b with
      | false => rfl
      | true => simp [isInSubtreeLoop] at hb
    | cons cur rest =>
      by_cases hskip : cur = "" ∨ cur ∈ seen
      · have hb2 : (isInSubtreeLoop remote root f rest seen s).1 = .ok b := by
          simpa [isInSubtreeLoop, hskip] using hb
        exact ih rest seen s hc b hb2
      · rcases hg : getParents remote s cur with ⟨r, s1⟩
        have hgp : (∀ ps, r = .ok ps → root ∉ ps) ∧ NoRootCache root s1 := by
          have h0 := getParents_noRoot remote root s cur hrem hc
          rw [hg] at h0
          exact h0
        cases r with
        | error e => simp [isInSubtreeLoop, hskip, hg] at hb
        | ok ps =>
          by_cases hps : ps = []
          · cases b with
            | false => rfl
            | true => simp [isInSubtreeLoop, hskip, hg, hps] at hb
          · by_cases hroot : root ∈ ps
            · exact absurd hroot (hgp.1 ps rfl)
            · have hb2 : (isInSubtreeLoop remote root f (ps.reverse ++ rest)
                  (cur :: seen) s1).1 = .ok b := by
                simpa [isInSubtreeLoop, hskip, hg, hps, hroot] using hb
              exact ih (ps.reverse ++ rest) (cur :: seen) s1 hgp.2 b hb2

/-- Claim C10: subtree membership is decided only by inspecting parent sets,
never by comparing the starting identifier against the root: when `rootId`
appears in no parent set the resolver can see (neither remotely nor in the
cache), `isInSubtree rootId rootId` — whenever the climb completes —
answers false: the watched root does not count as inside its own subtree. -/
theorem c10_root_not_inside_itself :
    ∀ (remote : RemoteFn) (rootId : String) (fuel : Nat) (s : St),
      NoRootRemote rootId remote → NoRootCache rootId s →
      ∀ b, (isInSubtree remote fuel rootId rootId s).1 = .ok b → b = false := by
  intro remote rootId fuel s hrem hcache b hb
  exact isInSubtreeLoop_noRoot remote rootId hrem fuel [rootId] [] s hcache b hb

/-- Witness for C10: under `remote10`, where `r` has a parent chain ending
at the storage root, the climb from `r` completes and answers false. -/
theorem c10_witness :
    ∃ b, (isInSubtree remote10 5 "r" "r" cleanSt).1 = .ok b ∧ b = false := by
  refine ⟨false, by decide, ?_⟩
  refine c10_root_not_inside_itself remote10 "r" 5 cleanSt ?_ ?_ false (by decide)
  · intro i o h
    unfold remote10 at h
    by_cases hi : i = "r"
    · rw [if_pos hi] at h
      rw [← Except.ok.inj h]
      decide
    · rw [if_neg hi] at h
      rw [← Except.ok.inj h]
      decide
  · intro i ps h
    simp [cleanSt, cacheGet] at h

/-- A member of a list of length at most one determines the list. -/
theorem list_eq_singleton_of_mem_of_len {α : Type} (a : α) (l : List α)
    (h : a ∈ l) (hl : l.length ≤ 1) : l = [a] := by
  cases l with
  | nil => cases h
  | cons b t =>
    cases t with
    | nil =>
      have hab : a = b := by simpa using h
      rw [hab]
    | cons e u => simp at hl

/-- Under single-parent ancestry, reaching the root yields a climb of some
definite length. -/
theorem reaches_to_chainHits (p : String → List String) (root : String)
    (hlen : ∀ i, (p i).length ≤ 1) :
    ∀ x, ReachesRoot p root x → ∃ k, ChainHits p root k x := by
  intro x h
  induction h with
  | base hx => exact ⟨0, .zero hx⟩
  | step hq hr ih =>
    obtain ⟨k, hk⟩ := ih
    exact ⟨k + 1, .succ (list_eq_singleton_of_mem_of_len _ _ hq (hlen _)) hk⟩

/-- A `ChainHits` derivation yields an explicit chain function. -/
theorem chainHits_to_fn (p : String → List String) (root : String) :
    ∀ (k : Nat) (x : String), ChainHits p root k x →
      ∃ c : Nat → String, c 0 = x ∧ (∀ i, i < k → p (c i) = [c (i + 1)])
        ∧ root ∈ p (c k) := by
  intro k x h
  induction h with
  | @zero x hx =>
    exact ⟨fun _ => x, rfl, fun i hi => absurd hi (Nat.not_lt_zero i), hx⟩
  | @succ x y k hpx hck ih =>
    obtain ⟨c, hc0, hcs1, hcs2⟩ := ih
    refine ⟨fun m => match m with | 0 => x | j + 1 => c j, rfl, ?_, ?_⟩
    · intro i hi
      cases i with
      | zero =>
        show p x = [c 0]
        rw [hc0]
        exact hpx
      | succ j => exact hcs1 j (by omega)
    · exact hcs2

/-- An explicit chain function yields a `ChainHits` derivation. -/
theorem fn_to_chainHits (p : String → List String) (root : String) :
    ∀ (k : Nat) (c : Nat → String),
      (∀ i, i < k → p (c i) = [c (i + 1)]) → root ∈ p (c k) →
      ChainHits p root k (c 0) := by
  intro k
  induction k with
  | zero => intro c h1 h2; exact .zero h2
  | succ k ih =>
    intro c h1 h2
    exact .succ (h1 0 (by omega)) (ih (fun i => c (i + 1)) (fun i hi => h1 (i + 1) (by omega)) h2)

/-- Cutting a repetition out of a chain leaves a strictly shorter chain. -/
theorem chainSpec_cut (p : String → List String) (root : String) (k : Nat)
    (c : Nat → String) (a b : Nat) (hab : a < b) (hbk : b ≤ k)
    (h1 : ∀ i, i < k → p (c i) = [c (i + 1)]) (h2 : root ∈ p (c k))
    (heq : c a = c b) :
    cutChain c a (b - a) 0 = c 0 ∧
      (∀ i, i < k - (b - a) → p (cutChain c a (b - a) i) = [cutChain c a (b - a) (i + 1)])
      ∧ root ∈ p (cutChain c a (b - a) (k - (b - a))) := by
  refine ⟨by simp [cutChain], ?_, ?_⟩
  · intro i hi
    unfold cutChain
    by_cases hia : i < a
    · rw [if_pos (by omega : i ≤ a), if_pos (by omega : i + 1 ≤ a)]
      exact h1 i (by omega)
    · by_cases hia2 : i = a
      · subst hia2
        rw [if_pos (Nat.le_refl i), if_neg (by omega : ¬ i + 1 ≤ i)]
        rw [heq]
        rw [show i + 1 + (b - i) = b + 1 from by omega]
        exact h1 b (by omega)
      · rw [if_neg (by omega : ¬ i ≤ a), if_neg (by omega : ¬ i + 1 ≤ a)]
        rw [show i + 1 + (b - a) = i + (b - a) + 1 from by omega]
        exact h1 (i + (b - a)) (by omega)
  · unfold cutChain
    by_cases hk : k - (b - a) ≤ a
    · rw [if_pos hk]
      rw [show k - (b - a) = a from by omega, heq, show b = k from by omega]
      exact h2
    · rw [if_neg hk]
      rw [show k - (b - a) + (b - a) = k from by omega]
      exact h2

/-- A nonempty set of naturals has a minimal element. -/
theorem exists_min {P : Nat → Prop} (h : ∃ k, P k) :
    ∃ k, P k ∧ ∀ j, j < k → ¬ P j := by
  obtain ⟨k, hk⟩ := h
  revert hk
  induction k using Nat.strong_induction_on with
  | _ k ih =>
    intro hk
    by_cases h2 : ∃ j, j < k ∧ P j
    · obtain ⟨j, hj, hPj⟩ := h2
      exact ih j hj hPj
    · exact ⟨k, hk, fun j hj hPj => h2 ⟨j, hj, hPj⟩⟩

/-- With a pure, never-failing remote and a faithful cache, `getParents`
answers exactly the pure parent map and keeps the cache faithful. -/
theorem getParents_pure (p : String → List String) (s : St) (i : String)
    (hc : CacheOk p s) :
    (getParents (pureRemote p) s i).1 = .ok (p i) ∧
      CacheOk p (getParents (pureRemote p) s i).2 := by
  unfold getParents
  cases hcg : cacheGet s.cache i with
  | some ps =>
    simp only [hcg]
    exact ⟨by rw [hc i ps hcg], hc⟩
  | none =>
    simp only [hcg, pureRemote]
    refine ⟨rfl, ?_⟩
    intro j qs hj
    have hj2 : (if j = i then some (p i) else cacheGet s.cache j) = some qs := hj
    by_cases hji : j = i
    · rw [if_pos hji] at hj2
      rw [← Option.some.inj hj2, hji]
    · rw [if_neg hji] at hj2
      exact hc j qs hj2

/-- The climb along a single-parent chain of distinct, nonempty, unseen
identifiers that ends in a parent set containing `root` — and meets `root`
nowhere earlier — answers true, given fuel for each link. -/
theorem isInSubtreeLoop_climb (p : String → List String) (root : String) :
    ∀ (k : Nat) (c : Nat → String) (x : String) (seen : List String) (s : St) (fuel : Nat),
      CacheOk p s →
      c 0 = x →
      (∀ i, i < k → p (c i) = [c (i + 1)]) →
      root ∈ p (c k) →
      (∀ i, i < k → root ∉ p (c i)) →
      (∀ a b, a ≤ k → b ≤ k → c a = c b → a = b) →
      (∀ i, i ≤ k → c i ≠ "") →
      (∀ i, i ≤ k → c i ∉ seen) →
      k + 1 ≤ fuel →
      (isInSubtreeLoop (pureRemote p) root fuel [x] seen s).1 = .ok true := by
  intro k
  induction k with
  | zero =>
    intro c x seen s fuel hcache hc0 hchain hroot hnoroot hinj hne2 hseen hfuel
    obtain ⟨f, rfl⟩ : ∃ f, fuel = f + 1 := ⟨fuel - 1, by omega⟩
    have hne0 : ¬ x = "" := by rw [← hc0]; exact hne2 0 (by omega)
    have hseen0 : ¬ x ∈ seen := by rw [← hc0]; exact hseen 0 (by omega)
    have hx : ¬ (x = "" ∨ x ∈ seen) := by
      push_neg
      exact ⟨hne0, hseen0⟩
    rcases hg : getParents (pureRemote p) s x with ⟨r, s1⟩
    have hgp : r = .ok (p x) ∧ CacheOk p s1 := by
      have h0 := getParents_pure p s x hcache
      rw [hg] at h0
      exact h0
    rcases hgp with ⟨hr, hcache1⟩
    subst hr
    have hrootx : root ∈ p x := by rw [← hc0]; exact hroot
    have hpne : ¬ (p x = []) := List.ne_nil_of_mem hrootx
    simp [isInSubtreeLoop, hx, hg, hpne, hrootx]
  | succ k ih =>
    intro c x seen s fuel hcache hc0 hchain hroot hnoroot hinj hne2 hseen hfuel
    obtain ⟨f, rfl⟩ : ∃ f, fuel = f + 1 := ⟨fuel - 1, by omega⟩
    have hne0 : ¬ x = "" := by rw [← hc0]; exact hne2 0 (by omega)
    have hseen0 : ¬ x ∈ seen := by rw [← hc0]; exact hseen 0 (by omega)
    have hx : ¬ (x = "" ∨ x ∈ seen) := by
      push_neg
      exact ⟨hne0, hseen0⟩
    rcases hg : getParents (pureRemote p) s x with ⟨r, s1⟩
    have hgp : r = .ok (p x) ∧ CacheOk p s1 := by
      have h0 := getParents_pure p s x hcache
      rw [hg] at h0
      exact h0
    rcases hgp with ⟨hr, hcache1⟩
    subst hr
    have hpx : p x = [c 1] := by
      rw [← hc0]
      exact hchain 0 (by omega)
    have hrootnx : root ∉ p x := by
      rw [← hc0]
      exact hnoroot 0 (by omega)
    have hpne : ¬ (p x = []) := by rw [hpx]; simp
    have hred : (isInSubtreeLoop (pureRemote p) root (f + 1) [x] seen s).1
        = (isInSubtreeLoop (pureRemote p) root f ((p x).reverse ++ [])
            (x :: seen) s1).1 := by
      simp [isInSubtreeLoop, hx, hg, hpne, hrootnx]
    rw [hred, hpx, show ([c 1].reverse ++ [] : List String) = [c 1] from by simp]
    exact ih (fun i => c (i + 1)) (c 1) (x :: seen) s1 f hcache1 rfl
      (fun i hi => hchain (i + 1) (by omega))
      hroot
      (fun i hi => hnoroot (i + 1) (by omega))
      (fun a b ha hb heq => by
        have := hinj (a + 1) (b + 1) (by omega) (by omega) heq
        omega)
      (fun i hi => hne2 (i + 1) (by omega))
      (fun i hi => by
        intro hmem
        rcases List.mem_cons.mp hmem with h1 | h2
        · have h1b : c (i + 1) = x := h1
          have := hinj (i + 1) 0 (by omega) (by omega) (by rw [h1b, hc0])
          omega
        · have h2b : c (i + 1) ∈ seen := h2
          exact hseen (i + 1) (by omega) h2b)
      (by omega)

/-- A successful `getParents` call preserves the lookup invariant: a cached
identifier costs no lookup, a fresh one is looked up once and cached. -/
theorem getParents_LookInv (remote : RemoteFn) (i : String) (s : St)
    (hok : ∃ o, remote i = .ok o) (hinv : LookInv s) :
    LookInv (getParents remote s i).2 := by
  unfold getParents
  cases hcg : cacheGet s.cache i with
  | some ps => simpa only [hcg] using hinv
  | none =>
    obtain ⟨o, ho⟩ := hok
    simp only [hcg, ho]
    rcases hinv with ⟨hnd, hmem⟩
    refine ⟨?_, ?_⟩
    · show (s.lookups ++ [i]).Nodup
      rw [List.nodup_append]
      refine ⟨hnd, List.nodup_singleton i, ?_⟩
      intro a ha hb
      have hai : a = i := by simpa using hb
      subst hai
      have h3 := hmem a ha
      rw [hcg] at h3
      simp at h3
    · intro j hj
      have hj2 : j ∈ s.lookups ++ [i] := hj
      show (if j = i then some (o.getD []) else cacheGet s.cache j).isSome = true
      by_cases hji : j = i
      · rw [if_pos hji]
        rfl
      · rw [if_neg hji]
        rcases List.mem_append.mp hj2 with h1 | h2
        · exact hmem j h1
        · exact absurd (by simpa using h2) hji

/-- Any sequence of successful `getParents` calls preserves the lookup
invariant. -/
theorem runGetParents_LookInv (remote : RemoteFn)
    (hok : ∀ i, ∃ o, remote i = .ok o) :
    ∀ (ids : List String) (s : St), LookInv s →
      LookInv (runGetParents remote ids s) := by
  intro ids
  induction ids with
  | nil => intro s h; exact h
  | cons i is ih =>
    intro s h
    exact ih _ (getParents_LookInv remote i s (hok i) h)

/-- Counterexample for C7: in the multi-parent ancestry `pC7`, the root is
an ancestor of `x` (through `b`), yet `isInSubtree` answers false — the
climb pops the Drive-root branch `a` first and returns early.  The second
conjunct shows the claim's premise concretely: `b`, a parent of `x`, is in
the subtree. -/
theorem c7_counterexample :
    ReachesRoot pC7 "root" "x"
    ∧ (isInSubtree (pureRemote pC7) 10 "x" "root" cleanSt).1 = .ok false
    ∧ (isInSubtree (pureRemote pC7) 10 "b" "root" cleanSt).1 = .ok true := by
  refine ⟨?_, by decide, by decide⟩
  exact .step (show "b" ∈ pC7 "x" by decide) (.base (show "root" ∈ pC7 "b" by decide))

/-- Claim C7 (amended): restricted to single-parent ancestry (each
identifier has at most one parent — the typical Drive shape), every
identifier whose parent chain reaches `root` is answered true by
`isInSubtree`, given enough fuel; and across any sequence of successful
`getParents` calls in one process, at most one remote lookup is performed
per distinct identifier — repeats are cache hits. -/
theorem c7_amended_reach_and_cache :
    (∀ (p : String → List String) (root x : String) (s : St),
        (∀ i, (p i).length ≤ 1) →
        (∀ i, "" ∉ p i) →
        x ≠ "" →
        CacheOk p s →
        ReachesRoot p root x →
        ∃ n, ∀ fuel, n ≤ fuel →
          (isInSubtree (pureRemote p) fuel x root s).1 = .ok true)
    ∧ (∀ (remote : RemoteFn) (ids : List String) (s : St),
        (∀ i, ∃ o, remote i = .ok o) →
        s.lookups = [] → s.cache = [] →
        (runGetParents remote ids s).lookups.Nodup) := by
  constructor
  · intro p root x s hlen hne hx hcache hreach
    obtain ⟨k0, hk0⟩ := reaches_to_chainHits p root hlen x hreach
    obtain ⟨k, hk, hkmin⟩ := @exists_min (fun k => ChainHits p root k x) ⟨k0, hk0⟩
    obtain ⟨c, hc0, hcs1, hcs2⟩ := chainHits_to_fn p root k x hk
    have hnoroot : ∀ i, i < k → root ∉ p (c i) := by
      intro i hi hmem
      have h3 := fn_to_chainHits p root i c (fun j hj => hcs1 j (by omega)) hmem
      rw [hc0] at h3
      exact hkmin i hi h3
    have hinj : ∀ a b, a ≤ k → b ≤ k → c a = c b → a = b := by
      intro a b ha hb heq
      by_contra hne3
      rcases Nat.lt_or_ge a b with hlt | hge
      · obtain ⟨hc20, hc21, hc22⟩ := chainSpec_cut p root k c a b hlt hb hcs1 hcs2 heq
        have h3 := fn_to_chainHits p root (k - (b - a)) (cutChain c a (b - a)) hc21 hc22
        rw [hc20, hc0] at h3
        exact hkmin (k - (b - a)) (by omega) h3
      · have hlt2 : b < a := by omega
        obtain ⟨hc20, hc21, hc22⟩ := chainSpec_cut p root k c b a hlt2 ha hcs1 hcs2 heq.symm
        have h3 := fn_to_chainHits p root (k - (a - b)) (cutChain c b (a - b)) hc21 hc22
        rw [hc20, hc0] at h3
        exact hkmin (k - (a - b)) (by omega) h3
    have hneC : ∀ i, i ≤ k → c i ≠ "" := by
      intro i hi
      cases i with
      | zero => rw [hc0]; exact hx
      | succ j =>
        have hpj : p (c j) = [c (j + 1)] := hcs1 j (by omega)
        intro heq
        have hmem : c (j + 1) ∈ p (c j) := by
          rw [hpj]
          exact List.mem_singleton_self _
        rw [heq] at hmem
        exact hne (c j) hmem
    refine ⟨k + 1, fun fuel hf => ?_⟩
    exact isInSubtreeLoop_climb p root k c x [] s fuel hcache hc0 hcs1 hcs2
      hnoroot hinj hneC (fun i hi => List.not_mem_nil _) hf
  · intro remote ids s hok hl hc
    have hinv : LookInv s := by
      refine ⟨?_, ?_⟩
      · rw [hl]
        exact List.nodup_nil
      · intro i hi
        rw [hl] at hi
        exact absurd hi (List.not_mem_nil i)
    exact (runGetParents_LookInv remote hok ids s hinv).1

/-- Witness for the amended C7: the single-parent chain `pW7` reaches the
root from `a`, and a call sequence with repeats performs no duplicate
remote lookup. -/
theorem c7_witness :
    (∃ n, ∀ fuel, n ≤ fuel →
        (isInSubtree (pureRemote pW7) fuel "a" "root" cleanSt).1 = .ok true)
    ∧ (runGetParents (pureRemote pW7) ["a", "a", "b", "a"] cleanSt).lookups.Nodup := by
  constructor
  · refine c7_amended_reach_and_cache.1 pW7 "root" "a" cleanSt ?_ ?_ (by decide) ?_ ?_
    · intro i
      unfold pW7
      by_cases h1 : i = "a"
      · simp [h1]
      · by_cases h2 : i = "b" <;> simp [h1, h2]
    · intro i
      unfold pW7
      by_cases h1 : i = "a"
      · simp [h1]
      · by_cases h2 : i = "b" <;> simp [h1, h2]
    · intro i ps h
      simp [cleanSt, cacheGet] at h
    · exact .step (show "b" ∈ pW7 "a" by decide) (.base (show "root" ∈ pW7 "b" by decide))
  · exact c7_amended_reach_and_cache.2 (pureRemote pW7) ["a", "a", "b", "a"] cleanSt
      (fun i => ⟨some (pW7 i), rfl⟩) rfl rfl

/-- The empty cache is faithful to any parent map. -/
theorem cacheOk_cleanSt (p : String → List String) : CacheOk p cleanSt := by
  intro i ps h
  simp [cleanSt, cacheGet] at h

/-- Faithfulness of a cache depends only on the cache field. -/
theorem cacheOk_of_cache_eq (p : String → List String) (s1 s2 : St)
    (h : s2.cache = s1.cache) (hs : CacheOk p s1) : CacheOk p s2 := by
  intro i ps hcp
  rw [h] at hcp
  exact hs i ps hcp

/-- `getParents` never touches the dispatch trace. -/
theorem getParents_dispatched (remote : RemoteFn) (s : St) (id : String) :
    ((getParents remote s id).2).dispatched = s.dispatched := by
  unfold getParents
  cases hc : cacheGet s.cache id with
  | some ps => simp
  | none =>
    cases hr : remote id with
    | error e => simp
    | ok o => simp

/-- The subtree climb never touches the dispatch trace. -/
theorem isInSubtreeLoop_dispatched (remote : RemoteFn) (root : String) :
    ∀ (fuel : Nat) (stack seen : List String) (s : St),
      ((isInSubtreeLoop remote root fuel stack seen s).2).dispatched = s.dispatched := by
  intro fuel
  induction fuel with
  | zero => intro stack seen s; simp [isInSubtreeLoop]
  | succ f ih =>
    intro stack seen s
    cases stack with
    | nil => simp [isInSubtreeLoop]
    | cons cur rest =>
      by_cases h : cur = "" ∨ cur ∈ seen
      · simp [isInSubtreeLoop, h, ih]
      · rcases hg : getParents remote s cur with ⟨r, s1⟩
        have hdi : s1.dispatched = s.dispatched := by
          have h2 := getParents_dispatched remote s cur
          rw [hg] at h2
          exact h2
        cases r with
        | error e => simp [isInSubtreeLoop, h, hg, hdi]
        | ok ps =>
          by_cases hps : ps = []
          · simp [isInSubtreeLoop, h, hg, hps, hdi]
          · by_cases hroot : root ∈ ps
            · simp [isInSubtreeLoop, h, hg, hps, hroot, hdi]
            · simp [isInSubtreeLoop, h, hg, hps, hroot, ih, hdi]

/-- With a pure remote, the climb keeps the cache faithful. -/
theorem isInSubtreeLoop_pure_CacheOk (p : String → List String) (root : String) :
    ∀ (fuel : Nat) (stack seen : List String) (s : St), CacheOk p s →
      CacheOk p (isInSubtreeLoop (pureRemote p) root fuel stack seen s).2 := by
  intro fuel
  induction fuel with
  | zero => intro stack seen s hs; simpa [isInSubtreeLoop] using hs
  | succ f ih =>
    intro stack seen s hs
    cases stack with
    | nil => simpa [isInSubtreeLoop] using hs
    | cons cur rest =>
      by_cases hskip : cur = "" ∨ cur ∈ seen
      · simpa [isInSubtreeLoop, hskip] using ih rest seen s hs
      · rcases hg : getParents (pureRemote p) s cur with ⟨r, s1⟩
        have hgp : r = .ok (p cur) ∧ CacheOk p s1 := by
          have h0 := getParents_pure p s cur hs
          rw [hg] at h0
          exact h0
        rcases hgp with ⟨hr, hs1⟩
        subst hr
        by_cases hps : p cur = []
        · simpa [isInSubtreeLoop, hskip, hg, hps] using hs1
        · by_cases hroot : root ∈ p cur
          · simpa [isInSubtreeLoop, hskip, hg, hps, hroot] using hs1
          · simpa [isInSubtreeLoop, hskip, hg, hps, hroot] using
              ih ((p cur).reverse ++ rest) (cur :: seen) s1 hs1

/-- With a pure remote, the climb's verdict does not depend on which
faithful cache it starts from: every lookup answers the pure map. -/
theorem isInSubtreeLoop_pure_resultEq (p : String → List String) (root : String) :
    ∀ (fuel : Nat) (stack seen : List String) (s s' : St),
      CacheOk p s → CacheOk p s' →
      (isInSubtreeLoop (pureRemote p) root fuel stack seen s).1 =
        (isInSubtreeLoop (pureRemote p) root fuel stack seen s').1 := by
  intro fuel
  induction fuel with
  | zero => intro stack seen s s' h1 h2; simp [isInSubtreeLoop]
  | succ f ih =>
    intro stack seen s s' hs hs'
    cases stack with
    | nil => simp [isInSubtreeLoop]
    | cons cur rest =>
      by_cases hskip : cur = "" ∨ cur ∈ seen
      · simpa [isInSubtreeLoop, hskip] using ih rest seen s s' hs hs'
      · rcases hg : getParents (pureRemote p) s cur with ⟨r, s1⟩
        rcases hg' : getParents (pureRemote p) s' cur with ⟨r', s1'⟩
        have hgp : r = .ok (p cur) ∧ CacheOk p s1 := by
          have h0 := getParents_pure p s cur hs
          rw [hg] at h0
          exact h0
        have hgp' : r' = .ok (p cur) ∧ CacheOk p s1' := by
          have h0 := getParents_pure p s' cur hs'
          rw [hg'] at h0
          exact h0
        rcases hgp with ⟨hr, hs1⟩
        rcases hgp' with ⟨hr', hs1'⟩
        subst hr
        subst hr'
        by_cases hps : p cur = []
        · simp [isInSubtreeLoop, hskip, hg, hg', hps]
        · by_cases hroot : root ∈ p cur
          · simp [isInSubtreeLoop, hskip, hg, hg', hps, hroot]
          · simpa [isInSubtreeLoop, hskip, hg, hg', hps, hroot] using
              ih ((p cur).reverse ++ rest) (cur :: seen) s1 s1' hs1 hs1'

/-- Every skip category of the entry loop is processed as a no-op: result
ok, no dispatch attempt, cache still faithful. -/
theorem processEntry_skipChange (env : Env) (p : String → List String) (fuel : Nat)
    (ch : Change) (s : St) (henv : env.remoteParents = pureRemote p)
    (hs : CacheOk p s) (hskip : SkipChange p env.rootFolderId fuel ch) :
    (processEntry env fuel s ch).1 = .ok () ∧
      (processEntry env fuel s ch).2.dispatched = s.dispatched ∧
      CacheOk p (processEntry env fuel s ch).2 := by
  rcases ch with ⟨file⟩
  cases file with
  | none => exact ⟨rfl, rfl, hs⟩
  | some f =>
    by_cases hid : f.id = ""
    · simpa [processEntry, hid] using hs
    · by_cases hmime : f.mimeType = FOLDER_MIME
      · simpa [processEntry, hid, hmime] using hs
      · have hrest :
            (isInSubtree (pureRemote p) fuel f.id env.rootFolderId cleanSt).1 = .ok false ∨
            ((isInSubtree (pureRemote p) fuel f.id env.rootFolderId cleanSt).1 = .ok true ∧
              isAudio f.name f.mimeType = false) := by
          rcases hskip with h | h | h | h
          · exact absurd h hid
          · exact absurd h hmime
          · exact Or.inl h
          · exact Or.inr h
        rcases hg : isInSubtree (pureRemote p) fuel f.id env.rootFolderId s with ⟨r, s1⟩
        have hres : r = (isInSubtree (pureRemote p) fuel f.id env.rootFolderId cleanSt).1 := by
          have h0 := isInSubtreeLoop_pure_resultEq p env.rootFolderId fuel [f.id] [] s
            cleanSt hs (cacheOk_cleanSt p)
          rw [show isInSubtreeLoop (pureRemote p) env.rootFolderId fuel [f.id] [] s
              = isInSubtree (pureRemote p) fuel f.id env.rootFolderId s from rfl, hg] at h0
          exact h0
        have hs1 : CacheOk p s1 := by
          have h0 := isInSubtreeLoop_pure_CacheOk p env.rootFolderId fuel [f.id] [] s hs
          rw [show isInSubtreeLoop (pureRemote p) env.rootFolderId fuel [f.id] [] s
              = isInSubtree (pureRemote p) fuel f.id env.rootFolderId s from rfl, hg] at h0
          exact h0
        have hdisp : s1.dispatched = s.dispatched := by
          have h0 := isInSubtreeLoop_dispatched (pureRemote p) env.rootFolderId fuel [f.id] [] s
          rw [show isInSubtreeLoop (pureRemote p) env.rootFolderId fuel [f.id] [] s
              = isInSubtree (pureRemote p) fuel f.id env.rootFolderId s from rfl, hg] at h0
          exact h0
        rcases hrest with hfalse | ⟨htrue, haud⟩
        · have hr : r = .ok false := by rw [hres]; exact hfalse
          subst hr
          refine ⟨by simp [processEntry, hid, hmime, henv, hg],
            by simp [processEntry, hid, hmime, henv, hg, hdisp], ?_⟩
          exact cacheOk_of_cache_eq p s1 _
            (by simp [processEntry, hid, hmime, henv, hg]) hs1
        · have hr : r = .ok true := by rw [hres]; exact htrue
          subst hr
          refine ⟨by simp [processEntry, hid, hmime, henv, hg, haud],
            by simp [processEntry, hid, hmime, henv, hg, haud, hdisp], ?_⟩
          exact cacheOk_of_cache_eq p s1 _
            (by simp [processEntry, hid, hmime, henv, hg, haud]) hs1

/-- A qualifying entry — non-folder, with an id, in-subtree, audio — is
dispatched exactly once, whatever the dispatch outcome. -/
theorem processEntry_dispatchQual (env : Env) (p : String → List String) (fuel : Nat)
    (f : DriveFile) (s : St) (henv : env.remoteParents = pureRemote p) (hs : CacheOk p s)
    (hid : f.id ≠ "") (hmime : f.mimeType ≠ FOLDER_MIME)
    (hin : (isInSubtree (pureRemote p) fuel f.id env.rootFolderId cleanSt).1 = .ok true)
    (haud : isAudio f.name f.mimeType = true) :
    (processEntry env fuel s (Change.mk (some f))).1 = .ok () ∧
      (processEntry env fuel s (Change.mk (some f))).2.dispatched
        = s.dispatched ++ [mkPayload f] ∧
      CacheOk p (processEntry env fuel s (Change.mk (some f))).2 := by
  rcases hg : isInSubtree (pureRemote p) fuel f.id env.rootFolderId s with ⟨r, s1⟩
  have hres : r = (isInSubtree (pureRemote p) fuel f.id env.rootFolderId cleanSt).1 := by
    have h0 := isInSubtreeLoop_pure_resultEq p env.rootFolderId fuel [f.id] [] s
      cleanSt hs (cacheOk_cleanSt p)
    rw [show isInSubtreeLoop (pureRemote p) env.rootFolderId fuel [f.id] [] s
        = isInSubtree (pureRemote p) fuel f.id env.rootFolderId s from rfl, hg] at h0
    exact h0
  have hs1 : CacheOk p s1 := by
    have h0 := isInSubtreeLoop_pure_CacheOk p env.rootFolderId fuel [f.id] [] s hs
    rw [show isInSubtreeLoop (pureRemote p) env.rootFolderId fuel [f.id] [] s
        = isInSubtree (pureRemote p) fuel f.id env.rootFolderId s from rfl, hg] at h0
    exact h0
  have hdisp : s1.dispatched = s.dispatched := by
    have h0 := isInSubtreeLoop_dispatched (pureRemote p) env.rootFolderId fuel [f.id] [] s
    rw [show isInSubtreeLoop (pureRemote p) env.rootFolderId fuel [f.id] [] s
        = isInSubtree (pureRemote p) fuel f.id env.rootFolderId s from rfl, hg] at h0
    exact h0
  have hr : r = .ok true := by rw [hres]; exact hin
  subst hr
  cases hd : env.dispatch (mkPayload f) with
  | error e =>
    refine ⟨by simp [processEntry, hid, hmime, henv, hg, haud, hd],
      by simp [processEntry, hid, hmime, henv, hg, haud, hd, hdisp], ?_⟩
    exact cacheOk_of_cache_eq p s1 _
      (by simp [processEntry, hid, hmime, henv, hg, haud, hd]) hs1
  | ok r2 =>
    by_cases hok : respOk r2
    · refine ⟨by simp [processEntry, hid, hmime, henv, hg, haud, hd, hok],
        by simp [processEntry, hid, hmime, henv, hg, haud, hd, hok, hdisp], ?_⟩
      exact cacheOk_of_cache_eq p s1 _
        (by simp [processEntry, hid, hmime, henv, hg, haud, hd, hok]) hs1
    · refine ⟨by simp [processEntry, hid, hmime, henv, hg, haud, hd, hok],
        by simp [processEntry, hid, hmime, henv, hg, haud, hd, hok, hdisp], ?_⟩
      exact cacheOk_of_cache_eq p s1 _
        (by simp [processEntry, hid, hmime, henv, hg, haud, hd, hok]) hs1

/-- A run of skip entries leaves the dispatch trace unchanged. -/
theorem processChanges_skips (env : Env) (p : String → List String) (fuel : Nat)
    (henv : env.remoteParents = pureRemote p) :
    ∀ (cs : List Change) (s : St), CacheOk p s →
      (∀ c, c ∈ cs → SkipChange p env.rootFolderId fuel c) →
      (processChanges env fuel cs s).1 = .ok () ∧
      (processChanges env fuel cs s).2.dispatched = s.dispatched ∧
      CacheOk p (processChanges env fuel cs s).2 := by
  intro cs
  induction cs with
  | nil => intro s hs _; exact ⟨rfl, rfl, hs⟩
  | cons c rest ih =>
    intro s hs hsk
    rcases hp : processEntry env fuel s c with ⟨r, s1⟩
    have hpe : r = .ok () ∧ s1.dispatched = s.dispatched ∧ CacheOk p s1 := by
      have h0 := processEntry_skipChange env p fuel c s henv hs (hsk c (by simp))
      rw [hp] at h0
      exact h0
    rcases hpe with ⟨hr, hdisp, hs1⟩
    subst hr
    have hrest := ih s1 hs1 (fun c2 hc2 => hsk c2 (by simp [hc2]))
    have heq : processChanges env fuel (c :: rest) s = processChanges env fuel rest s1 := by
      simp [processChanges, hp]
    rw [heq]
    exact ⟨hrest.1, by rw [hrest.2.1, hdisp], hrest.2.2⟩

/-- Processing a page made of skip entries around a single qualifying audio
entry dispatches exactly that entry's payload, wherever it sits. -/
theorem processChanges_one_dispatch (env : Env) (p : String → List String) (fuel : Nat)
    (henv : env.remoteParents = pureRemote p) (fIn : DriveFile)
    (hid : fIn.id ≠ "") (hmime : fIn.mimeType ≠ FOLDER_MIME)
    (hin : (isInSubtree (pureRemote p) fuel fIn.id env.rootFolderId cleanSt).1 = .ok true)
    (haud : isAudio fIn.name fIn.mimeType = true) :
    ∀ (cs1 cs2 : List Change) (s : St), CacheOk p s →
      (∀ c, c ∈ cs1 → SkipChange p env.rootFolderId fuel c) →
      (∀ c, c ∈ cs2 → SkipChange p env.rootFolderId fuel c) →
      (processChanges env fuel (cs1 ++ Change.mk (some fIn) :: cs2) s).1 = .ok () ∧
      (processChanges env fuel (cs1 ++ Change.mk (some fIn) :: cs2) s).2.dispatched
        = s.dispatched ++ [mkPayload fIn] := by
  intro cs1
  induction cs1 with
  | nil =>
    intro cs2 s hs _ hsk2
    rcases hp : processEntry env fuel s (Change.mk (some fIn)) with ⟨r, s1⟩
    have hpe : r = .ok () ∧ s1.dispatched = s.dispatched ++ [mkPayload fIn] ∧
        CacheOk p s1 := by
      have h0 := processEntry_dispatchQual env p fuel fIn s henv hs hid hmime hin haud
      rw [hp] at h0
      exact h0
    rcases hpe with ⟨hr, hdisp, hs1⟩
    subst hr
    have hrest := processChanges_skips env p fuel henv cs2 s1 hs1 hsk2
    have heq : processChanges env fuel ([] ++ Change.mk (some fIn) :: cs2) s
        = processChanges env fuel cs2 s1 := by
      simp [processChanges, hp]
    rw [heq]
    exact ⟨hrest.1, by rw [hrest.2.1, hdisp]⟩
  | cons c rest ih =>
    intro cs2 s hs hsk1 hsk2
    rcases hp : processEntry env fuel s c with ⟨r, s1⟩
    have hpe : r = .ok () ∧ s1.dispatched = s.dispatched ∧ CacheOk p s1 := by
      have h0 := processEntry_skipChange env p fuel c s henv hs (hsk1 c (by simp))
      rw [hp] at h0
      exact h0
    rcases hpe with ⟨hr, hdisp, hs1⟩
    subst hr
    have heq : processChanges env fuel ((c :: rest) ++ Change.mk (some fIn) :: cs2) s
        = processChanges env fuel (rest ++ Change.mk (some fIn) :: cs2) s1 := by
      simp [processChanges, hp]
    rw [heq]
    have hrec := ih cs2 s1 hs1 (fun c2 hc2 => hsk1 c2 (by simp [hc2])) hsk2
    exact ⟨hrec.1, by rw [hrec.2, hdisp]⟩

/-- Claim C4: for every harvesting pass over a single feed page whose
entries are exactly one qualifying in-subtree audio file together with
skip entries of the claim's categories — folder entries, entries without a
file object or item identifier, out-of-subtree entries, non-audio entries
— in any order and position, the pass completes and dispatches exactly one
notification payload, built from the in-subtree audio file.  The second
conjunct states the skip rules entry-wise: each skip category is processed
without any dispatch. -/
theorem c4_single_page_one_dispatch :
    (∀ (env : Env) (p : String → List String) (fuel : Nat) (s : St) (t : String)
        (page : ChangePage) (fIn : DriveFile) (cs1 cs2 : List Change),
        env.remoteParents = pureRemote p →
        CacheOk p s →
        env.rootFolderId ≠ "" → env.processUrl ≠ "" →
        s.lastPageToken = some t → t ≠ "" →
        1 ≤ fuel →
        env.listChanges t = .ok page →
        jsOrNull page.nextPageToken = none →
        page.changes = cs1 ++ Change.mk (some fIn) :: cs2 →
        (∀ c, c ∈ cs1 → SkipChange p env.rootFolderId fuel c) →
        (∀ c, c ∈ cs2 → SkipChange p env.rootFolderId fuel c) →
        fIn.id ≠ "" → fIn.mimeType ≠ FOLDER_MIME →
        (isInSubtree (pureRemote p) fuel fIn.id env.rootFolderId cleanSt).1 = .ok true →
        isAudio fIn.name fIn.mimeType = true →
        ∃ ns s1, harvestChangesAndDispatch env fuel s = (.ok (ns, [page]), s1) ∧
          s1.dispatched = s.dispatched ++ [mkPayload fIn])
    ∧ (∀ (env : Env) (p : String → List String) (fuel : Nat) (s : St) (ch : Change),
        env.remoteParents = pureRemote p → CacheOk p s →
        SkipChange p env.rootFolderId fuel ch →
        (processEntry env fuel s ch).1 = .ok () ∧
        (processEntry env fuel s ch).2.dispatched = s.dispatched) := by
  constructor
  · intro env p fuel s t page fIn cs1 cs2 henv hs hroot hurl hcur ht hfuel hlist
      hnext hpage hsk1 hsk2 hid hmime hin haud
    have hcfg : ¬(env.rootFolderId = "" ∨ env.processUrl = "") := by
      push_neg
      exact ⟨hroot, hurl⟩
    obtain ⟨f0, rfl⟩ : ∃ f0, fuel = f0 + 1 := ⟨fuel - 1, by omega⟩
    have hproc := processChanges_one_dispatch env p (f0 + 1) henv fIn hid hmime hin haud
      cs1 cs2 s hs hsk1 hsk2
    rw [← hpage] at hproc
    rcases hpc : processChanges env (f0 + 1) page.changes s with ⟨rc, s1⟩
    have hproc2 : rc = .ok () ∧ s1.dispatched = s.dispatched ++ [mkPayload fIn] := by
      rw [hpc] at hproc
      exact ⟨hproc.1, hproc.2⟩
    rcases hproc2 with ⟨hrc, hdisp⟩
    subst hrc
    have hloop : harvestLoop env (f0 + 1) (f0 + 1) t s
        = (.ok (jsOrNull page.newStartPageToken, [page]), s1) := by
      simp [harvestLoop, hlist, hpc, hnext]
    rw [harvest_eq_from env (f0 + 1) s t hcur ht hcfg]
    unfold harvestFrom
    rw [hloop]
    cases hns : jsOrNull page.newStartPageToken with
    | none => exact ⟨none, s1, rfl, hdisp⟩
    | some x => exact ⟨some x, { s1 with lastPageToken := some x }, rfl, hdisp⟩
  · intro env p fuel s ch henv hs hskip
    have h0 := processEntry_skipChange env p fuel ch s henv hs hskip
    exact ⟨h0.1, h0.2.1⟩

/-- Witness for C4 at the concrete page `page4` (folder entry, then the
out-of-subtree file, then the in-subtree audio file) under `env4`. -/
theorem c4_witness :
    ∃ ns s1, harvestChangesAndDispatch env4 10 st4 = (.ok (ns, [page4]), s1) ∧
      s1.dispatched = st4.dispatched ++ [mkPayload file4In] := by
  refine c4_single_page_one_dispatch.1 env4 p4 10 st4 "t1" page4 file4In
    [⟨some file4Folder⟩, ⟨some file4Out⟩] [] rfl ?_ (by decide) (by decide) rfl
    (by decide) (by omega) (by decide) (by decide) rfl ?_ ?_ (by decide) (by decide)
    (by decide) (by decide)
  · intro i ps h
    simp [st4, cleanSt, cacheGet] at h
  · intro c hc
    rcases List.mem_cons.mp hc with h1 | h2
    · subst h1
      decide
    · have h3 : c = ⟨some file4Out⟩ := by simpa using h2
      subst h3
      decide
  · intro c hc
    exact absurd hc (List.not_mem_nil c)

end Spark
